import Mathlib

/-!
Shallow embedding of the SONIA swap pricing analytics engine
(`src/curves.py`, `src/daycount.py`, `src/schedule.py`, `src/swap_pricing.py`,
`src/pricing_engine.py`) over real arithmetic, together with proofs about the
claims of the specification.

Python floats are modelled by `ℝ` (schedule/day-count arithmetic, which is
exact rational/integer arithmetic in the source, is modelled by `ℚ`/`ℤ` so that
it stays executable).  A raised Python exception is modelled by `Except PyErr`;
`PyErr.value` stands for `ValueError` (the spec's `InvalidCurveError`,
`InvalidRangeError`, `InsufficientCoverageError`, `UnsupportedConventionError`,
`ScheduleDegenerateError` are all plain `ValueError`s in the source), while
`PyErr.index` stands for an uncaught `IndexError`.
-/

/-- Python exception kinds that the engine can raise. -/
inductive PyErr where
  | value : PyErr
  | index : PyErr
deriving DecidableEq, Repr

/-- One linear segment of `np.interp`: the value at `x` of the line through
`(x1, y1)` and `(x2, y2)`. -/
noncomputable def interpSeg (x x1 y1 x2 y2 : ℝ) : ℝ :=
  y1 + (x - x1) * (y2 - y1) / (x2 - x1)

/-- Inner loop of `np.interp`: `p` is the last node with `p.1 < x` seen so far. -/
noncomputable def npInterpGo (x : ℝ) : (ℝ × ℝ) → List (ℝ × ℝ) → ℝ
  | p, [] => p.2
  | p, q :: rest => if x ≤ q.1 then interpSeg x p.1 p.2 q.1 q.2 else npInterpGo x q rest

/-- `np.interp(x, xp, fp)` with the node table given as a list of pairs:
piecewise-linear interpolation with flat extrapolation outside the node range. -/
noncomputable def npInterp (x : ℝ) : List (ℝ × ℝ) → ℝ
  | [] => 0
  | p :: rest => if x ≤ p.1 then p.2 else npInterpGo x p rest

/-- `np.round` / Python `round`: round half to even, as an integer. -/
noncomputable def npRound (x : ℝ) : ℤ :=
  let fl := ⌊x⌋
  if x - fl < 1 / 2 then fl
  else if 1 / 2 < x - fl then fl + 1
  else if fl.emod 2 = 0 then fl else fl + 1

/-- `CurvePoint` from `src/curves.py`. -/
structure CurvePoint where
  tenor : ℝ
  rate : ℝ

/-- The ordering used by `sorted(points, key=lambda p: p.tenor)`. -/
def ptLE (p q : CurvePoint) : Prop := p.tenor ≤ q.tenor

noncomputable instance : DecidableRel ptLE := fun p q => Real.decidableLE p.tenor q.tenor

instance : IsTotal CurvePoint ptLE := ⟨fun p q => le_total p.tenor q.tenor⟩

instance : IsTrans CurvePoint ptLE := ⟨fun _ _ _ h h2 => le_trans h h2⟩

instance : IsTotal CurvePoint fun p q => p.tenor ≤ q.tenor :=
  ⟨fun p q => le_total p.tenor q.tenor⟩

instance : IsTrans CurvePoint fun p q => p.tenor ≤ q.tenor :=
  ⟨fun _ _ _ h h2 => le_trans h h2⟩

/-- The ordering used by `df.sort_values("tenor_years")` on quote rows. -/
def quoteLE (p q : ℝ × ℝ) : Prop := p.1 ≤ q.1

noncomputable instance : DecidableRel quoteLE := fun p q => Real.decidableLE p.1 q.1

instance : IsTotal (ℝ × ℝ) quoteLE := ⟨fun p q => le_total p.1 q.1⟩

instance : IsTrans (ℝ × ℝ) quoteLE := ⟨fun _ _ _ h h2 => le_trans h h2⟩

instance : IsTotal (ℝ × ℝ) fun p q : ℝ × ℝ => p.1 ≤ q.1 := ⟨fun p q => le_total p.1 q.1⟩

instance : IsTrans (ℝ × ℝ) fun p q : ℝ × ℝ => p.1 ≤ q.1 := ⟨fun _ _ _ h h2 => le_trans h h2⟩

/-- `ZeroCurve`'s fields: sorted tenors, rates, name, optional discount-factor
cache (`self._tenors`, `self._rates`, `self.name`, `self._discount_factors`). -/
structure ZeroCurve where
  tenors : List ℝ
  rates : List ℝ
  name : String
  dfs : Option (List ℝ)

namespace ZeroCurve

/-- `ZeroCurve.__init__`.  `sorted` is stable insertion sort; `pts[0]` on an
empty list is an uncaught `IndexError`; the two `raise ValueError`s map to
`PyErr.value`.  The supplied discount factors are stored as given (the source
does not reorder them). -/
noncomputable def init (points : List CurvePoint) (name : String)
    (dfs? : Option (List ℝ)) : Except PyErr ZeroCurve :=
  match List.insertionSort ptLE points with
  | [] => .error .index
  | p0 :: rest =>
    if p0.tenor ≤ 0 then .error .value
    else
      match dfs? with
      | some d =>
          if d.length ≠ ((p0 :: rest).map CurvePoint.tenor).length then .error .value
          else .ok ⟨(p0 :: rest).map CurvePoint.tenor,
            (p0 :: rest).map CurvePoint.rate, name, some d⟩
      | none => .ok ⟨(p0 :: rest).map CurvePoint.tenor,
          (p0 :: rest).map CurvePoint.rate, name, none⟩

/-- `ZeroCurve.zero_rate`. -/
noncomputable def zero_rate (c : ZeroCurve) (t : ℝ) : ℝ :=
  if t ≤ 0 then c.rates.headD 0
  else if c.tenors.getLastD 0 ≤ t then c.rates.getLastD 0
  else npInterp t (c.tenors.zip c.rates)

/-- `ZeroCurve.discount_factor`. -/
noncomputable def discount_factor (c : ZeroCurve) (t : ℝ) : ℝ :=
  if t ≤ 0 then 1
  else
    match c.dfs with
    | some d =>
        if t ≤ c.tenors.headD 0 then Real.exp (-(c.rates.headD 0) * t)
        else if c.tenors.getLastD 0 ≤ t then
          d.getLastD 0 * Real.exp (-(c.rates.getLastD 0) * (t - c.tenors.getLastD 0))
        else Real.exp (npInterp t (c.tenors.zip (d.map Real.log)))
    | none => Real.exp (-(c.zero_rate t) * t)

/-- `ZeroCurve.forward_rate`; `raise ValueError` when `end <= start`. -/
noncomputable def forward_rate (c : ZeroCurve) (start e : ℝ) : Except PyErr ℝ :=
  if e ≤ start then .error .value
  else .ok (Real.log (c.discount_factor start / c.discount_factor e) / (e - start))

/-- The invariant `ZeroCurve.__init__` establishes: nonempty nondecreasing
tenors with positive head, rates aligned with tenors, cached discount factors
(when present) aligned with tenors. -/
def Valid (c : ZeroCurve) : Prop :=
  c.tenors ≠ [] ∧ c.tenors.Chain' (· ≤ ·) ∧ 0 < c.tenors.headD 0 ∧
    c.rates.length = c.tenors.length ∧ ∀ d ∈ c.dfs, d.length = c.tenors.length

end ZeroCurve

/-- The bootstrap loop of `ZeroCurve.from_par_swap_dataframe`: walks the
`(tenor, accrual)` grid left to right, carrying the running annuity
`s = Σ_{j<idx} accrual_j · DF_j` (the source recomputes this sum with
`np.sum(accruals[:idx] * discount_factors[:idx])` each iteration; the
accumulator has exactly that value).  The source's special `idx == 0` branch
`1 / (1 + r·accrual)` coincides with the general formula at `s = 0`. -/
noncomputable def stripLoop (quotes : List (ℝ × ℝ)) :
    List (ℝ × ℝ) → ℝ → List ℝ
  | [], _ => []
  | (tenor, accrual) :: rest, s =>
      let par := npInterp tenor quotes
      let df := (1 - par * s) / (1 + par * accrual)
      df :: stripLoop quotes rest (s + accrual * df)

/-- `sorted_df`: the quote table sorted ascending by tenor (stable). -/
noncomputable def sortQuotes (quotes : List (ℝ × ℝ)) : List (ℝ × ℝ) :=
  List.insertionSort quoteLE quotes

/-- The bootstrap node grid `tenors = np.arange(1, steps + 1) / payment_frequency`. -/
noncomputable def bootstrapGrid (f : ℤ) (n : ℕ) : List ℝ :=
  (List.range n).map fun i : ℕ => ((i : ℝ) + 1) / (f : ℝ)

/-- `accruals = np.diff(np.concatenate(([0.0], tenors)))`. -/
noncomputable def bootstrapAccruals (f : ℤ) (n : ℕ) : List ℝ :=
  List.zipWith (· - ·) (bootstrapGrid f n) (0 :: bootstrapGrid f n)

/-- The bootstrapped discount factors over the grid. -/
noncomputable def bootstrapDfs (quotes : List (ℝ × ℝ)) (f : ℤ) (n : ℕ) : List ℝ :=
  stripLoop (sortQuotes quotes) ((bootstrapGrid f n).zip (bootstrapAccruals f n)) 0

/-- `zero_rates = -np.log(discount_factors) / tenors`. -/
noncomputable def bootstrapZeroRates (quotes : List (ℝ × ℝ)) (f : ℤ) (n : ℕ) : List ℝ :=
  List.zipWith (fun df t => -Real.log df / t) (bootstrapDfs quotes f n) (bootstrapGrid f n)

/-- `ZeroCurve.from_par_swap_dataframe`.  `payment_frequency` is a Python
`int`; quote rows are `(tenor_years, rate)` pairs.  `par_tenors[-1]` on an
empty table is an uncaught `IndexError`. -/
noncomputable def from_par_swap_dataframe (quotes : List (ℝ × ℝ)) (name : String)
    (payment_frequency : ℤ) : Except PyErr ZeroCurve :=
  if payment_frequency ≤ 0 then .error .value
  else
    match (sortQuotes quotes).getLast? with
    | none => .error .index
    | some last =>
      if npRound (last.1 * (payment_frequency : ℝ)) ≤ 0 then .error .value
      else
        ZeroCurve.init
          (List.zipWith CurvePoint.mk
            (bootstrapGrid payment_frequency (npRound (last.1 * (payment_frequency : ℝ))).toNat)
            (bootstrapZeroRates quotes payment_frequency
              (npRound (last.1 * (payment_frequency : ℝ))).toNat))
          name
          (some (bootstrapDfs quotes payment_frequency
            (npRound (last.1 * (payment_frequency : ℝ))).toNat))

/-! ### Dates, day counts and schedules -/

/-- A proleptic-Gregorian calendar date (`datetime.date` / `pd.Timestamp`). -/
structure Date where
  year : ℤ
  month : ℤ
  day : ℤ
deriving DecidableEq, Repr

/-- Gregorian leap year. -/
def isLeap (y : ℤ) : Bool :=
  (y.emod 4 = 0 && y.emod 100 != 0) || y.emod 400 = 0

/-- Number of days in a month. -/
def daysInMonth (y m : ℤ) : ℤ :=
  if m = 2 then (if isLeap y then 29 else 28)
  else if m = 4 ∨ m = 6 ∨ m = 9 ∨ m = 11 then 30
  else 31

/-- `pd.Timestamp + pd.DateOffset(months=m)`: shift the month index and clamp
the day of month to the target month's length. -/
def addMonths (d : Date) (m : ℤ) : Date :=
  let t := 12 * d.year + (d.month - 1) + m
  let y := t / 12
  let mo := t % 12 + 1
  ⟨y, mo, min d.day (daysInMonth y mo)⟩

/-- Day number of a date (days since 1970-01-01, proleptic Gregorian); models
`datetime.date` subtraction, which yields exact day counts. -/
def toRataDie (d : Date) : ℤ :=
  let y := if d.month ≤ 2 then d.year - 1 else d.year
  let era := y.ediv 400
  let yoe := y - era * 400
  let mp := (d.month + 9).emod 12
  let doy := (153 * mp + 2).ediv 5 + d.day - 1
  let doe := yoe * 365 + yoe.ediv 4 - yoe.ediv 100 + doy
  era * 146097 + doe - 719468

/-- `actual_365` from `src/daycount.py`: `(end - start).days / 365.0`. -/
def actual_365 (start e : Date) : ℚ :=
  ((toRataDie e - toRataDie start : ℤ) : ℚ) / 365

/-- `thirty_360` from `src/daycount.py` (US convention). -/
def thirty_360 (start e : Date) : ℚ :=
  let d1 := min start.day 30
  let d2 := min e.day (if start.day = 30 then 30 else e.day)
  (((e.year - start.year) * 360 + (e.month - start.month) * 30 + (d2 - d1) : ℤ) : ℚ) / 360

/-- `str.upper()` restricted to ASCII, which covers the convention names the
engine uses. -/
def pyToUpper (s : String) : String :=
  ⟨s.data.map fun c => if 'a' ≤ c ∧ c ≤ 'z' then Char.ofNat (c.toNat - 32) else c⟩

/-- `year_fraction` from `src/daycount.py`: the two-entry
`DAYCOUNT_FUNCTIONS` dict lookup on the upper-cased name; an unknown
convention name raises `ValueError`. -/
def year_fraction (start e : Date) (convention : String) : Except PyErr ℚ :=
  if pyToUpper convention = "ACT/365" then .ok (actual_365 start e)
  else if pyToUpper convention = "30/360" then .ok (thirty_360 start e)
  else .error .value

/-- Python `round` on an exact rational (round half to even); `Rat.floor` is
the floor function on `ℚ` (defeq to `⌊·⌋`, but kernel-reducible). -/
def qround (x : ℚ) : ℤ :=
  let fl := x.floor
  if x - fl < 1 / 2 then fl
  else if 1 / 2 < x - fl then fl + 1
  else if fl % 2 = 0 then fl else fl + 1

instance exceptDecEq {ε α : Type} [DecidableEq ε] [DecidableEq α] :
    DecidableEq (Except ε α)
  | .error e1, .error e2 =>
      if h : e1 = e2 then isTrue (by rw [h])
      else isFalse (fun hh => h (Except.error.inj hh))
  | .error _, .ok _ => isFalse (fun hh => Except.noConfusion hh)
  | .ok _, .error _ => isFalse (fun hh => Except.noConfusion hh)
  | .ok a1, .ok a2 =>
      if h : a1 = a2 then isTrue (by rw [h])
      else isFalse (fun hh => h (Except.ok.inj hh))

/-- `CashflowPeriod` from `src/schedule.py`. -/
structure CashflowPeriod where
  start : Date
  periodEnd : Date
  accrual_factor : ℚ
deriving DecidableEq, Repr

instance : Inhabited CashflowPeriod := ⟨⟨⟨0, 1, 1⟩, ⟨0, 1, 1⟩, 0⟩⟩

/-- The `for _ in range(total_periods)` loop of `generate_schedule`, rolling
`period_start` forward by `step_months` each iteration. -/
def schedLoop (dayCount : String) (stepMonths : ℤ) :
    ℕ → Date → Except PyErr (List CashflowPeriod)
  | 0, _ => .ok []
  | n + 1, periodStart => do
      let periodEnd := addMonths periodStart stepMonths
      let accrual ← year_fraction periodStart periodEnd dayCount
      let rest ← schedLoop dayCount stepMonths n periodEnd
      .ok (⟨periodStart, periodEnd, accrual⟩ :: rest)

/-- `generate_schedule` from `src/schedule.py`.  A negative rounded period
count behaves like Python's `range(n)` with `n < 0` (no iterations), which
`Int.toNat` reproduces. -/
def generate_schedule (start : Date) (tenor_years : ℚ) (payments_per_year : ℤ)
    (day_count : String) : Except PyErr (List CashflowPeriod) :=
  if payments_per_year ≤ 0 then .error .value
  else
    let total := qround (tenor_years * (payments_per_year : ℚ))
    if total = 0 then .error .value
    else
      let stepMonths := qround ((12 : ℚ) / (payments_per_year : ℚ))
      schedLoop day_count stepMonths total.toNat start

/-! ### Swap pricing -/

/-- `SwapDefinition` from `src/swap_pricing.py` (`payer` is the literal string
`"fixed"` or `"float"`; the float fields are `ℝ`, the schedule inputs exact). -/
structure SwapDefinition where
  valuation_date : Date
  effective_date : Date
  maturity_years : ℚ
  notional : ℝ
  fixed_rate : ℝ
  payer : String
  fixed_leg_frequency : ℤ := 2
  floating_leg_frequency : ℤ := 4
  fixed_leg_daycount : String := "30/360"
  floating_leg_daycount : String := "ACT/365"
  spread : ℝ := 0

/-- One row of the cashflow table.  `forward_rate` is `np.nan` for the fixed
leg in the source, modelled as `none`. -/
structure CashflowRow where
  period_start : Date
  period_end : Date
  accrual_factor : ℚ
  coupon_rate : ℝ
  fwd_rate : Option ℝ
  cashflow : ℝ
  df : ℝ
  present_value : ℝ
  time_to_payment : ℚ
  leg : String
  projection_rate : ℝ

/-- Ordering of cashflow rows used by `sort_values("period_end")`. -/
def rowLE (a b : CashflowRow) : Prop := toRataDie a.period_end ≤ toRataDie b.period_end

instance : DecidableRel rowLE := fun a b => Int.decLe _ _

instance : IsTotal CashflowRow rowLE := ⟨fun a b => le_total _ _⟩

instance : IsTrans CashflowRow rowLE := ⟨fun _ _ _ h h2 => le_trans h h2⟩

/-- `SwapPricer._build_fixed_cashflows`. -/
noncomputable def build_fixed_cashflows (discountCurve : ZeroCurve)
    (swap : SwapDefinition) : Except PyErr (List CashflowRow) := do
  let schedule ← generate_schedule swap.effective_date swap.maturity_years
    swap.fixed_leg_frequency swap.fixed_leg_daycount
  schedule.mapM fun period => do
    let tPay ← year_fraction swap.valuation_date period.periodEnd "ACT/365"
    let discount := discountCurve.discount_factor (tPay : ℝ)
    let cashflow := swap.notional * swap.fixed_rate * (period.accrual_factor : ℝ)
    let direction : ℝ := if swap.payer = "fixed" then -1 else 1
    pure
      { period_start := period.start
        period_end := period.periodEnd
        accrual_factor := period.accrual_factor
        coupon_rate := swap.fixed_rate
        fwd_rate := none
        cashflow := direction * cashflow
        df := discount
        present_value := direction * cashflow * discount
        time_to_payment := tPay
        leg := "fixed"
        projection_rate := swap.fixed_rate }

/-- `SwapPricer._build_floating_cashflows`. -/
noncomputable def build_floating_cashflows (discountCurve forwardCurve : ZeroCurve)
    (swap : SwapDefinition) : Except PyErr (List CashflowRow) := do
  let schedule ← generate_schedule swap.effective_date swap.maturity_years
    swap.floating_leg_frequency swap.floating_leg_daycount
  schedule.mapM fun period => do
    let tStart ← year_fraction swap.valuation_date period.start "ACT/365"
    let tEnd ← year_fraction swap.valuation_date period.periodEnd "ACT/365"
    let forward ← forwardCurve.forward_rate (tStart : ℝ) (tEnd : ℝ)
    let effectiveRate := forward + swap.spread
    let cashflow := swap.notional * effectiveRate * (period.accrual_factor : ℝ)
    let discount := discountCurve.discount_factor (tEnd : ℝ)
    let direction : ℝ := if swap.payer = "fixed" then 1 else -1
    pure
      { period_start := period.start
        period_end := period.periodEnd
        accrual_factor := period.accrual_factor
        coupon_rate := effectiveRate
        fwd_rate := some forward
        cashflow := direction * cashflow
        df := discount
        present_value := direction * cashflow * discount
        time_to_payment := tEnd
        leg := "floating"
        projection_rate := forward }

/-- `PricingResult`: the dict returned by `SwapPricer.price`. -/
structure PricingResult where
  cashflows : List CashflowRow
  fixed_leg_pv : ℝ
  floating_leg_pv : ℝ
  npv : ℝ

/-- `SwapPricer.price`: concatenate legs, sum the signed present values per
leg, and return the table sorted by `period_end`. -/
noncomputable def price (discountCurve forwardCurve : ZeroCurve)
    (swap : SwapDefinition) : Except PyErr PricingResult := do
  let fixedLeg ← build_fixed_cashflows discountCurve swap
  let floatLeg ← build_floating_cashflows discountCurve forwardCurve swap
  let cashflows := fixedLeg ++ floatLeg
  let fixedPV := ((cashflows.filter fun r => r.leg = "fixed").map
    CashflowRow.present_value).sum
  let floatPV := ((cashflows.filter fun r => r.leg = "floating").map
    CashflowRow.present_value).sum
  pure ⟨List.insertionSort rowLE cashflows, fixedPV, floatPV, fixedPV + floatPV⟩

/-! ### Risk engine (`src/pricing_engine.py`) -/

/-- `bump_curve`: parallel bump in basis points.  The source queries
`curve.discount_factor(t)` at each node, scales by `exp(-bump * t)`, recomputes
implied rates, and rebuilds the curve through `ZeroCurve.__init__` (the name
formatting of the f-string is abstracted). -/
noncomputable def bump_curve (curve : ZeroCurve) (bump_bp : ℝ) :
    Except PyErr ZeroCurve :=
  let bump := bump_bp / 10000
  let tenors := curve.tenors
  let baseDfs := tenors.map fun t => curve.discount_factor t
  let bumpedDfs := List.zipWith (fun df t => df * Real.exp (-bump * t)) baseDfs tenors
  let bumpedRates := List.zipWith (fun df t => -Real.log df / t) bumpedDfs tenors
  let points := List.zipWith CurvePoint.mk tenors bumpedRates
  ZeroCurve.init points (curve.name ++ " bumped") (some bumpedDfs)

/-- Value stored in the `tenor_shifts` dict at key `t` (dict lookup by float
equality; only applied to keys present in the dict). -/
noncomputable def dictShiftAt (tenorShifts : List (ℝ × ℝ)) (t : ℝ) : ℝ :=
  ((tenorShifts.find? (fun p => decide (p.1 = t))).map Prod.snd).getD 0

/-- The inner `for j in range(len(sorted_tenors) - 1)` segment search of
`apply_non_parallel_shift`; `shifts[i]` keeps its `np.zeros` default `0` when
no segment matches. -/
noncomputable def segShift (tenorShifts : List (ℝ × ℝ)) (tenor : ℝ) :
    List ℝ → ℝ
  | t1 :: t2 :: ts =>
      if t1 ≤ tenor ∧ tenor ≤ t2 then
        let shift1 := dictShiftAt tenorShifts t1 / 10000
        let shift2 := dictShiftAt tenorShifts t2 / 10000
        let alpha := if t2 ≠ t1 then (tenor - t1) / (t2 - t1) else 0
        shift1 + alpha * (shift2 - shift1)
      else segShift tenorShifts tenor (t2 :: ts)
  | _ => 0

/-- Body of the `apply_non_parallel_shift` per-node loop: the decimal shift for
one curve tenor.  `tenor in tenor_shifts` is dict (float-equality) lookup;
`sorted_tenors[0]` on an empty dict is an uncaught `IndexError`. -/
noncomputable def shiftForTenor (tenorShifts : List (ℝ × ℝ)) (tenor : ℝ) :
    Except PyErr ℝ :=
  match tenorShifts.find? (fun p => decide (p.1 = tenor)) with
  | some p => .ok (p.2 / 10000)
  | none =>
    let sortedTenors := List.insertionSort (· ≤ ·) (tenorShifts.map Prod.fst)
    match sortedTenors with
    | [] => .error .index
    | t0 :: rest =>
      let lastT := (t0 :: rest).getLastD 0
      if tenor < t0 then .ok (dictShiftAt tenorShifts t0 / 10000)
      else if lastT < tenor then .ok (dictShiftAt tenorShifts lastT / 10000)
      else .ok (segShift tenorShifts tenor (t0 :: rest))

/-- `apply_non_parallel_shift`: interpolate the requested bp shifts onto the
curve's node tenors, add them to the zero rates, recompute discount factors. -/
noncomputable def apply_non_parallel_shift (curve : ZeroCurve)
    (tenorShifts : List (ℝ × ℝ)) : Except PyErr ZeroCurve := do
  let shifts ← curve.tenors.mapM (fun t => shiftForTenor tenorShifts t)
  let bumpedRates := List.zipWith (· + ·) curve.rates shifts
  let bumpedDfs := List.zipWith (fun r t => Real.exp (-r * t)) bumpedRates curve.tenors
  let points := List.zipWith CurvePoint.mk curve.tenors bumpedRates
  ZeroCurve.init points (curve.name ++ " non-parallel shift") (some bumpedDfs)

/-- The adaptive default half-width of `apply_key_rate_shift` when `width` is
not supplied. -/
noncomputable def defaultKeyRateWidth (keyTenor : ℝ) : ℝ :=
  if keyTenor < 1 then 1 else if keyTenor ≤ 5 then 2 else 3

/-- The triangular ("tent") shift, in decimal, that `apply_key_rate_shift`
adds to the zero rate at curve tenor `t`. -/
noncomputable def tentShift (keyTenor shiftBp width t : ℝ) : ℝ :=
  if |t - keyTenor| ≤ width then shiftBp / 10000 * (1 - |t - keyTenor| / width) else 0

/-- `apply_key_rate_shift`: add the tent shift to every node rate and
recompute discount factors. -/
noncomputable def apply_key_rate_shift (curve : ZeroCurve) (keyTenor shiftBp : ℝ)
    (width : Option ℝ := none) : Except PyErr ZeroCurve :=
  let w := width.getD (defaultKeyRateWidth keyTenor)
  let shifts := curve.tenors.map fun t => tentShift keyTenor shiftBp w t
  let bumpedRates := List.zipWith (· + ·) curve.rates shifts
  let bumpedDfs := List.zipWith (fun r t => Real.exp (-r * t)) bumpedRates curve.tenors
  let points := List.zipWith CurvePoint.mk curve.tenors bumpedRates
  ZeroCurve.init points (curve.name ++ " KR") (some bumpedDfs)

/-- The per-key-tenor loop of `calculate_key_rate_dv01`, building the ordered
(tenor → DV01) mapping. -/
noncomputable def keyRateLoop (swap : SwapDefinition)
    (discountCurve forwardCurve : ZeroCurve) (bumpBp : ℝ) (baseNpv : ℝ) :
    List ℝ → Except PyErr (List (ℝ × ℝ))
  | [] => .ok []
  | keyTenor :: rest => do
      let shiftedDiscount ← apply_key_rate_shift discountCurve keyTenor bumpBp
      let shiftedForward ← apply_key_rate_shift forwardCurve keyTenor bumpBp
      let shiftedPricing ← price shiftedDiscount shiftedForward swap
      let tail ← keyRateLoop swap discountCurve forwardCurve bumpBp baseNpv rest
      .ok ((keyTenor, shiftedPricing.npv - baseNpv) :: tail)

/-- `calculate_key_rate_dv01`: base NPV once, then one tent-shift repricing per
key tenor. -/
noncomputable def calculate_key_rate_dv01 (swap : SwapDefinition)
    (discountCurve forwardCurve : ZeroCurve) (keyTenors : List ℝ)
    (bumpBp : ℝ := 1) : Except PyErr (List (ℝ × ℝ)) := do
  let basePricing ← price discountCurve forwardCurve swap
  keyRateLoop swap discountCurve forwardCurve bumpBp basePricing.npv keyTenors

/-- The dict returned by `price_with_risk`. -/
structure RiskResult where
  pricing : PricingResult
  npv : ℝ
  pv01 : ℝ
  dv01 : ℝ
  cashflows : List CashflowRow

/-- `price_with_risk`: base NPV, bump both curves in parallel, reprice;
`pv01 = dv01 = bumpedNPV - baseNPV`. -/
noncomputable def price_with_risk (swap : SwapDefinition)
    (discountCurve forwardCurve : ZeroCurve) (bumpBp : ℝ := 1) :
    Except PyErr RiskResult := do
  let pricing ← price discountCurve forwardCurve swap
  let npv := pricing.npv
  let bumpedDiscount ← bump_curve discountCurve bumpBp
  let bumpedForward ← bump_curve forwardCurve bumpBp
  let bumpedPricing ← price bumpedDiscount bumpedForward swap
  let pv01 := bumpedPricing.npv - npv
  let dv01 := pv01
  .ok ⟨pricing, npv, pv01, dv01, pricing.cashflows⟩

/-! ### Spec-side definitions used to state the claims -/

/-- The sign that a leg's cashflows carry: `-1` when the swap holder pays that
leg, `+1` when the holder receives it (fixed payer pays fixed, receives
floating, and conversely). -/
noncomputable def legDirection (payer leg : String) : ℝ :=
  if leg = "fixed" then (if payer = "fixed" then -1 else 1)
  else (if payer = "fixed" then 1 else -1)

/-- "`effective_date + maturity`" in the schedule-coverage claim: the start
date advanced by the maturity converted to calendar months. -/
def datePlusYears (d : Date) (years : ℚ) : Date :=
  addMonths d (qround (years * 12))

instance : Inhabited CurvePoint := ⟨⟨0, 0⟩⟩

/-- Strict increase of the first components along a pair list. -/
def fstLT (a b : ℝ × ℝ) : Prop := a.1 < b.1

/-- Nondecrease of the second components along a pair list. -/
def sndLE (a b : ℝ × ℝ) : Prop := a.2 ≤ b.2

/-- The body of `ZeroCurve.zero_rate` abstracted over the curve's arrays
(used to reason about monotonicity; `zero_rate c t = zrList c.tenors c.rates t`
definitionally). -/
noncomputable def zrList (tenors rates : List ℝ) (t : ℝ) : ℝ :=
  if t ≤ 0 then rates.headD 0
  else if tenors.getLastD 0 ≤ t then rates.getLastD 0
  else npInterp t (tenors.zip rates)

/-- `t_max`: the largest quote tenor, read off as the last tenor of the sorted
table (`par_tenors[-1]`). -/
noncomputable def bootstrapTmax (quotes : List (ℝ × ℝ)) : ℝ :=
  ((sortQuotes quotes).getLastD (0, 0)).1

/-- The pure date spine of a schedule: the `(start, end)` pairs that
`schedLoop` produces, with the accruals dropped (kernel-computable). -/
def schedDates (step : ℤ) : ℕ → Date → List (Date × Date)
  | 0, _ => []
  | n + 1, s => (s, addMonths s step) :: schedDates step n (addMonths s step)

/-! ### Helper lemmas -/

theorem chain_le_getLastD (p : ℝ × ℝ) (l : List (ℝ × ℝ))
    (h : List.Chain (fun a b : ℝ × ℝ => a.2 ≤ b.2) p l) : p.2 ≤ (l.getLastD p).2 := by
  induction l generalizing p with
  | nil => exact le_refl _
  | cons q rest ih =>
      rw [List.chain_cons] at h
      rw [List.getLastD_cons]
      exact le_trans h.1 (ih q h.2)

theorem chainD_le_headD_getLastD (l : List ℝ) (h : l.Chain' (· ≤ ·)) :
    l.headD 0 ≤ l.getLastD 0 := by
  cases l with
  | nil => exact le_refl _
  | cons x xs =>
      induction xs generalizing x with
      | nil => exact le_refl _
      | cons y ys ih =>
          rw [List.chain'_cons] at h
          exact le_trans h.1 (ih y h.2)

theorem zip_getLastD (l1 : List ℝ) (l2 : List ℝ) (a b : ℝ)
    (h : l1.length = l2.length) :
    (l1.zip l2).getLastD (a, b) = (l1.getLastD a, l2.getLastD b) := by
  induction l1 generalizing l2 a b with
  | nil =>
      cases l2 with
      | nil => rfl
      | cons y ys => simp at h
  | cons x xs ih =>
      cases l2 with
      | nil => simp at h
      | cons y ys =>
          simp only [List.length_cons, Nat.succ_inj] at h
          simp only [List.zip_cons_cons, List.getLastD_cons]
          exact ih ys x y h

namespace ZeroCurve

theorem init_ok (points : List CurvePoint) (name : String) (dfs? : Option (List ℝ))
    (hs : points.Sorted ptLE) (hne : points ≠ [])
    (hpos : 0 < (points.headD default).tenor)
    (hlen : ∀ d ∈ dfs?, d.length = points.length) :
    init points name dfs? =
      .ok ⟨points.map CurvePoint.tenor, points.map CurvePoint.rate, name, dfs?⟩ := by
  cases points with
  | nil => exact absurd rfl hne
  | cons p0 rest =>
      have hpos' : 0 < p0.tenor := hpos
      have hs' : List.insertionSort ptLE (p0 :: rest) = p0 :: rest := hs.insertionSort_eq
      cases dfs? with
      | none => simp only [init, hs', if_neg (not_le.mpr hpos')]
      | some d =>
          have hd : d.length = (p0 :: rest).length := hlen d rfl
          simp only [init, hs', if_neg (not_le.mpr hpos')]
          rw [if_neg]
          simp only [List.length_map]
          omega

theorem init_valid (points : List CurvePoint) (name : String) (dfs? : Option (List ℝ))
    (c : ZeroCurve) (h : init points name dfs? = .ok c) : c.Valid := by
  unfold init at h
  split at h
  · exact absurd h (by simp)
  · rename_i p0 rest hpts
    have hsorted : List.Sorted ptLE (p0 :: rest) := by
      rw [← hpts]; exact List.sorted_insertionSort ptLE points
    split at h
    · exact absurd h (by simp)
    · rename_i hp
      have hchain : ((p0 :: rest).map CurvePoint.tenor).Chain' (· ≤ ·) := by
        rw [List.chain'_map]
        exact List.chain'_iff_pairwise.mpr hsorted
      have hfields : c.tenors = (p0 :: rest).map CurvePoint.tenor ∧
          c.rates = (p0 :: rest).map CurvePoint.rate ∧
          (∀ d ∈ c.dfs, d.length = (p0 :: rest).length) := by
        split at h
        · rename_i d
          split at h
          · exact absurd h (by simp)
          · rename_i hlen
            simp only [Except.ok.injEq] at h
            rw [← h]
            refine ⟨rfl, rfl, ?_⟩
            intro d' hd'
            simp only [Option.mem_def, Option.some.injEq] at hd'
            rw [← hd']
            have := not_ne_iff.mp hlen
            simpa using this
        · simp only [Except.ok.injEq] at h
          rw [← h]
          exact ⟨rfl, rfl, by intro d hd; simp at hd⟩
      obtain ⟨ht, hr, hd⟩ := hfields
      refine ⟨by rw [ht]; simp, by rw [ht]; exact hchain, ?_, by rw [ht, hr]; simp, ?_⟩
      · rw [ht]
        simpa using lt_of_not_le hp
      · intro d hd'
        rw [ht, List.length_map]
        exact hd d hd'

end ZeroCurve

/-! ### Interpolation lemmas -/

theorem interpSeg_right (x1 y1 x2 y2 : ℝ) (h : x1 < x2) :
    interpSeg x2 x1 y1 x2 y2 = y2 := by
  unfold interpSeg
  have hne : x2 - x1 ≠ 0 := ne_of_gt (by linarith)
  field_simp

theorem interpSeg_ge (x x1 y1 x2 y2 : ℝ) (hx1 : x1 ≤ x) (h12 : x1 < x2)
    (hy : y1 ≤ y2) : y1 ≤ interpSeg x x1 y1 x2 y2 := by
  unfold interpSeg
  have : 0 ≤ (x - x1) * (y2 - y1) / (x2 - x1) :=
    div_nonneg (mul_nonneg (by linarith) (by linarith)) (by linarith)
  linarith

theorem interpSeg_mono (x x' x1 y1 x2 y2 : ℝ) (h12 : x1 < x2) (hy : y1 ≤ y2)
    (hxx : x ≤ x') : interpSeg x x1 y1 x2 y2 ≤ interpSeg x' x1 y1 x2 y2 := by
  unfold interpSeg
  have h0 : 0 < x2 - x1 := by linarith
  have hm : (x - x1) * (y2 - y1) ≤ (x' - x1) * (y2 - y1) :=
    mul_le_mul_of_nonneg_right (by linarith) (by linarith)
  have := (div_le_div_right h0).mpr hm
  linarith

theorem interpSeg_le (x x1 y1 x2 y2 : ℝ) (h12 : x1 < x2) (hy : y1 ≤ y2)
    (hx2 : x ≤ x2) : interpSeg x x1 y1 x2 y2 ≤ y2 :=
  (interpSeg_mono x x2 x1 y1 x2 y2 h12 hy hx2).trans_eq (interpSeg_right x1 y1 x2 y2 h12)

theorem npInterpGo_lower (x : ℝ) (p : ℝ × ℝ) (l : List (ℝ × ℝ)) (hx : p.1 < x)
    (h1 : List.Chain fstLT p l) (h2 : List.Chain sndLE p l) :
    p.2 ≤ npInterpGo x p l := by
  induction l generalizing p with
  | nil => exact le_refl _
  | cons q rest ih =>
      rw [List.chain_cons] at h1 h2
      unfold npInterpGo
      by_cases hq : x ≤ q.1
      · rw [if_pos hq]
        exact interpSeg_ge x p.1 p.2 q.1 q.2 hx.le h1.1 h2.1
      · rw [if_neg hq]
        exact le_trans h2.1 (ih q (lt_of_not_le hq) h1.2 h2.2)

theorem npInterpGo_le_getLast (x : ℝ) (p : ℝ × ℝ) (l : List (ℝ × ℝ))
    (h1 : List.Chain fstLT p l) (h2 : List.Chain sndLE p l) :
    npInterpGo x p l ≤ (l.getLastD p).2 := by
  induction l generalizing p with
  | nil => exact le_refl _
  | cons q rest ih =>
      rw [List.chain_cons] at h1 h2
      rw [List.getLastD_cons]
      unfold npInterpGo
      by_cases hq : x ≤ q.1
      · rw [if_pos hq]
        exact le_trans (interpSeg_le x p.1 p.2 q.1 q.2 h1.1 h2.1 hq)
          (chain_le_getLastD q rest h2.2)
      · rw [if_neg hq]
        exact ih q h1.2 h2.2

theorem npInterpGo_mono (x x' : ℝ) (hxx : x ≤ x') (p : ℝ × ℝ) (l : List (ℝ × ℝ))
    (hx : p.1 < x) (h1 : List.Chain fstLT p l) (h2 : List.Chain sndLE p l) :
    npInterpGo x p l ≤ npInterpGo x' p l := by
  induction l generalizing p with
  | nil => exact le_refl _
  | cons q rest ih =>
      rw [List.chain_cons] at h1 h2
      unfold npInterpGo
      by_cases hq' : x' ≤ q.1
      · rw [if_pos hq', if_pos (le_trans hxx hq')]
        exact interpSeg_mono x x' p.1 p.2 q.1 q.2 h1.1 h2.1 hxx
      · rw [if_neg hq']
        by_cases hq : x ≤ q.1
        · rw [if_pos hq]
          exact le_trans (interpSeg_le x p.1 p.2 q.1 q.2 h1.1 h2.1 hq)
            (npInterpGo_lower x' q rest (lt_of_not_le hq') h1.2 h2.2)
        · rw [if_neg hq]
          exact ih q (lt_of_not_le hq) h1.2 h2.2

theorem npInterp_mono (x x' : ℝ) (hxx : x ≤ x') (l : List (ℝ × ℝ))
    (h1 : l.Chain' fstLT) (h2 : l.Chain' sndLE) : npInterp x l ≤ npInterp x' l := by
  cases l with
  | nil => exact le_refl _
  | cons p rest =>
      have hc1 : List.Chain fstLT p rest := h1
      have hc2 : List.Chain sndLE p rest := h2
      simp only [npInterp]
      by_cases hp' : x' ≤ p.1
      · rw [if_pos hp', if_pos (le_trans hxx hp')]
      · rw [if_neg hp']
        by_cases hp : x ≤ p.1
        · rw [if_pos hp]
          exact npInterpGo_lower x' p rest (lt_of_not_le hp') hc1 hc2
        · rw [if_neg hp]
          exact npInterpGo_mono x x' hxx p rest (lt_of_not_le hp) hc1 hc2

theorem npInterp_lower (x : ℝ) (p : ℝ × ℝ) (rest : List (ℝ × ℝ))
    (h1 : (p :: rest).Chain' fstLT) (h2 : (p :: rest).Chain' sndLE) :
    p.2 ≤ npInterp x (p :: rest) := by
  have hc1 : List.Chain fstLT p rest := h1
  have hc2 : List.Chain sndLE p rest := h2
  simp only [npInterp]
  by_cases hp : x ≤ p.1
  · rw [if_pos hp]
  · rw [if_neg hp]
    exact npInterpGo_lower x p rest (lt_of_not_le hp) hc1 hc2

theorem npInterp_le_getLast (x : ℝ) (p : ℝ × ℝ) (rest : List (ℝ × ℝ))
    (h1 : (p :: rest).Chain' fstLT) (h2 : (p :: rest).Chain' sndLE) :
    npInterp x (p :: rest) ≤ (rest.getLastD p).2 := by
  have hc1 : List.Chain fstLT p rest := h1
  have hc2 : List.Chain sndLE p rest := h2
  simp only [npInterp]
  by_cases hp : x ≤ p.1
  · rw [if_pos hp]
    exact chain_le_getLastD p rest hc2
  · rw [if_neg hp]
    exact npInterpGo_le_getLast x p rest hc1 hc2

theorem zero_rate_eq_zrList (c : ZeroCurve) (t : ℝ) :
    c.zero_rate t = zrList c.tenors c.rates t := rfl

theorem zip_chain_fst (tenors rates : List ℝ) (hlen : rates.length = tenors.length)
    (htc : tenors.Chain' (· < ·)) : (tenors.zip rates).Chain' fstLT := by
  have hmf : (tenors.zip rates).map Prod.fst = tenors :=
    List.map_fst_zip tenors rates (le_of_eq hlen.symm)
  have : ((tenors.zip rates).map Prod.fst).Chain' (· < ·) := by rw [hmf]; exact htc
  exact (List.chain'_map Prod.fst).mp this

theorem zip_chain_snd (tenors rates : List ℝ) (hlen : rates.length = tenors.length)
    (hrc : rates.Chain' (· ≤ ·)) : (tenors.zip rates).Chain' sndLE := by
  have hms : (tenors.zip rates).map Prod.snd = rates :=
    List.map_snd_zip tenors rates (le_of_eq hlen)
  have : ((tenors.zip rates).map Prod.snd).Chain' (· ≤ ·) := by rw [hms]; exact hrc
  exact (List.chain'_map Prod.snd).mp this

theorem zrList_mono (t0 : ℝ) (ts : List ℝ) (r0 : ℝ) (rs : List ℝ)
    (hlen : (r0 :: rs).length = (t0 :: ts).length)
    (htc : (t0 :: ts).Chain' (· < ·)) (hrc : (r0 :: rs).Chain' (· ≤ ·))
    (t1 t2 : ℝ) (h12 : t1 ≤ t2) :
    zrList (t0 :: ts) (r0 :: rs) t1 ≤ zrList (t0 :: ts) (r0 :: rs) t2 := by
  have hp1 : ((t0 :: ts).zip (r0 :: rs)).Chain' fstLT := zip_chain_fst _ _ hlen htc
  have hp2 : ((t0 :: ts).zip (r0 :: rs)).Chain' sndLE := zip_chain_snd _ _ hlen hrc
  have hzc : (t0 :: ts).zip (r0 :: rs) = (t0, r0) :: ts.zip rs := rfl
  have hlastP : (ts.zip rs).getLastD (t0, r0) =
      ((t0 :: ts).getLastD 0, (r0 :: rs).getLastD 0) := by
    have := zip_getLastD (t0 :: ts) (r0 :: rs) 0 0 hlen.symm
    rw [hzc, List.getLastD_cons] at this
    exact this
  have hhead_last : r0 ≤ (r0 :: rs).getLastD 0 := by
    have := chainD_le_headD_getLastD (r0 :: rs) hrc
    simpa using this
  rw [hzc] at hp1 hp2
  unfold zrList
  by_cases h1 : t1 ≤ 0
  · rw [if_pos h1]
    by_cases h2 : t2 ≤ 0
    · rw [if_pos h2]
    · rw [if_neg h2]
      by_cases hL2 : (t0 :: ts).getLastD 0 ≤ t2
      · rw [if_pos hL2]
        simpa using hhead_last
      · rw [if_neg hL2]
        rw [hzc]
        simpa using npInterp_lower t2 (t0, r0) (ts.zip rs) hp1 hp2
  · have h2 : ¬t2 ≤ 0 := fun h => h1 (le_trans h12 h)
    rw [if_neg h1, if_neg h2]
    by_cases hL1 : (t0 :: ts).getLastD 0 ≤ t1
    · rw [if_pos hL1, if_pos (le_trans hL1 h12)]
    · rw [if_neg hL1]
      by_cases hL2 : (t0 :: ts).getLastD 0 ≤ t2
      · rw [if_pos hL2, hzc]
        have := npInterp_le_getLast t1 (t0, r0) (ts.zip rs) hp1 hp2
        rw [hlastP] at this
        exact this
      · rw [if_neg hL2, hzc]
        exact npInterp_mono t1 t2 h12 _ hp1 hp2

theorem zrList_nonneg (t0 : ℝ) (ts : List ℝ) (r0 : ℝ) (rs : List ℝ)
    (hlen : (r0 :: rs).length = (t0 :: ts).length)
    (htc : (t0 :: ts).Chain' (· < ·)) (hrc : (r0 :: rs).Chain' (· ≤ ·))
    (h0 : 0 ≤ r0) (t : ℝ) : 0 ≤ zrList (t0 :: ts) (r0 :: rs) t := by
  have hp1 : ((t0 :: ts).zip (r0 :: rs)).Chain' fstLT := zip_chain_fst _ _ hlen htc
  have hp2 : ((t0 :: ts).zip (r0 :: rs)).Chain' sndLE := zip_chain_snd _ _ hlen hrc
  have hzc : (t0 :: ts).zip (r0 :: rs) = (t0, r0) :: ts.zip rs := rfl
  rw [hzc] at hp1 hp2
  have hhead_last : r0 ≤ (r0 :: rs).getLastD 0 := by
    have := chainD_le_headD_getLastD (r0 :: rs) hrc
    simpa using this
  unfold zrList
  by_cases h1 : t ≤ 0
  · rw [if_pos h1]; simpa using h0
  · rw [if_neg h1]
    by_cases hL : (t0 :: ts).getLastD 0 ≤ t
    · rw [if_pos hL]
      exact le_trans h0 hhead_last
    · rw [if_neg hL, hzc]
      exact le_trans h0 (by simpa using npInterp_lower t (t0, r0) (ts.zip rs) hp1 hp2)

namespace ZeroCurve

theorem discount_factor_nocache (c : ZeroCurve) (hdfs : c.dfs = none) (t : ℝ) :
    c.discount_factor t = if t ≤ 0 then 1 else Real.exp (-(c.zero_rate t) * t) := by
  by_cases h : t ≤ 0
  · simp only [discount_factor, if_pos h]
  · simp only [discount_factor, if_neg h, hdfs]

theorem discount_factor_antitone_nocache (c : ZeroCurve) (hdfs : c.dfs = none)
    (hne : c.tenors ≠ []) (hlen : c.rates.length = c.tenors.length)
    (htc : c.tenors.Chain' (· < ·)) (hrc : c.rates.Chain' (· ≤ ·))
    (hall : ∀ r ∈ c.rates, 0 ≤ r) (t1 t2 : ℝ) (h12 : t1 ≤ t2) :
    c.discount_factor t2 ≤ c.discount_factor t1 := by
  rw [discount_factor_nocache c hdfs, discount_factor_nocache c hdfs]
  cases hT : c.tenors with
  | nil => exact absurd hT hne
  | cons t0 ts =>
    cases hR : c.rates with
    | nil => rw [hT, hR] at hlen; simp at hlen
    | cons r0 rs =>
      have hlen' : (r0 :: rs).length = (t0 :: ts).length := by
        rw [← hT, ← hR]; exact hlen
      have htc' : (t0 :: ts).Chain' (· < ·) := by rw [← hT]; exact htc
      have hrc' : (r0 :: rs).Chain' (· ≤ ·) := by rw [← hR]; exact hrc
      have h0 : 0 ≤ r0 := hall r0 (by rw [hR]; exact List.mem_cons_self r0 rs)
      have hmono : ∀ a b : ℝ, a ≤ b → c.zero_rate a ≤ c.zero_rate b := by
        intro a b hab
        rw [zero_rate_eq_zrList, zero_rate_eq_zrList, hT, hR]
        exact zrList_mono t0 ts r0 rs hlen' htc' hrc' a b hab
      have hnn : ∀ a : ℝ, 0 ≤ c.zero_rate a := by
        intro a
        rw [zero_rate_eq_zrList, hT, hR]
        exact zrList_nonneg t0 ts r0 rs hlen' htc' hrc' h0 a
      by_cases h2 : t2 ≤ 0
      · rw [if_pos h2, if_pos (le_trans h12 h2)]
      · rw [if_neg h2]
        by_cases h1 : t1 ≤ 0
        · rw [if_pos h1]
          have : -(c.zero_rate t2) * t2 ≤ 0 := by
            have := mul_nonneg (hnn t2) (le_of_lt (lt_of_not_le h2))
            nlinarith
          calc Real.exp (-(c.zero_rate t2) * t2) ≤ Real.exp 0 := Real.exp_le_exp.mpr this
          _ = 1 := Real.exp_zero
        · rw [if_neg h1]
          apply Real.exp_le_exp.mpr
          have : c.zero_rate t1 * t1 ≤ c.zero_rate t2 * t2 :=
            mul_le_mul (hmono t1 t2 h12) h12 (le_of_not_le h1) (hnn t2)
          nlinarith

end ZeroCurve

/-! ### Bootstrap loop lemmas -/

theorem stripLoop_length (q : List (ℝ × ℝ)) :
    ∀ (pairs : List (ℝ × ℝ)) (s : ℝ), (stripLoop q pairs s).length = pairs.length := by
  intro pairs
  induction pairs with
  | nil => intro s; rfl
  | cons pa rest ih =>
      intro s
      obtain ⟨t, a⟩ := pa
      simp only [stripLoop, List.length_cons]
      rw [ih]

theorem stripLoop_getD (q : List (ℝ × ℝ)) :
    ∀ (pairs : List (ℝ × ℝ)) (s : ℝ) (i : ℕ), i < pairs.length →
      (stripLoop q pairs s).getD i 0 =
        (1 - npInterp (pairs.getD i (0, 0)).1 q *
            (s + ∑ j ∈ Finset.range i,
              (pairs.getD j (0, 0)).2 * (stripLoop q pairs s).getD j 0)) /
          (1 + npInterp (pairs.getD i (0, 0)).1 q * (pairs.getD i (0, 0)).2) := by
  intro pairs
  induction pairs with
  | nil => intro s i hi; simp at hi
  | cons pa rest ih =>
      intro s i hi
      obtain ⟨t, a⟩ := pa
      cases i with
      | zero =>
          simp only [stripLoop, List.getD_cons_zero, Finset.range_zero,
            Finset.sum_empty, add_zero]
      | succ k =>
          have hk : k < rest.length := by simpa using hi
          simp only [stripLoop, List.getD_cons_succ]
          rw [ih (s + a * ((1 - npInterp t q * s) / (1 + npInterp t q * a))) k hk]
          rw [Finset.sum_range_succ']
          simp only [List.getD_cons_succ, List.getD_cons_zero]
          ring_nf

theorem npInterpGo_const (x r : ℝ) :
    ∀ (l : List (ℝ × ℝ)) (p : ℝ × ℝ), p.2 = r → (∀ z ∈ l, z.2 = r) →
      npInterpGo x p l = r := by
  intro l
  induction l with
  | nil => intro p hp _; exact hp
  | cons q rest ih =>
      intro p hp hl
      unfold npInterpGo
      by_cases hq : x ≤ q.1
      · rw [if_pos hq]
        have hq2 : q.2 = r := hl q (List.mem_cons_self q rest)
        unfold interpSeg
        rw [hp, hq2]
        ring
      · rw [if_neg hq]
        exact ih q (hl q (List.mem_cons_self q rest))
          (fun z hz => hl z (List.mem_cons_of_mem q hz))

theorem npInterp_const (x r : ℝ) (q : List (ℝ × ℝ)) (hq : ∀ p ∈ q, p.2 = r)
    (hne : q ≠ []) : npInterp x q = r := by
  cases q with
  | nil => exact absurd rfl hne
  | cons p rest =>
      simp only [npInterp]
      by_cases hp : x ≤ p.1
      · rw [if_pos hp]
        exact hq p (List.mem_cons_self p rest)
      · rw [if_neg hp]
        exact npInterpGo_const x r rest p (hq p (List.mem_cons_self p rest))
          (fun z hz => hq z (List.mem_cons_of_mem p hz))

theorem stripLoop_flat (q : List (ℝ × ℝ)) (r d : ℝ) (hq : ∀ p ∈ q, p.2 = r)
    (hqne : q ≠ []) (hden : 1 + r * d ≠ 0) :
    ∀ (pairs : List (ℝ × ℝ)), (∀ p ∈ pairs, p.2 = d) → ∀ (s : ℝ) (k : ℕ),
      k < pairs.length →
      (stripLoop q pairs s).getD k 0 = (1 / (1 + r * d)) ^ (k + 1) * (1 - r * s) := by
  intro pairs
  induction pairs with
  | nil => intro _ s k hk; simp at hk
  | cons pa rest ih =>
      intro hpairs s k hk
      obtain ⟨t, a⟩ := pa
      have ha : a = d := hpairs (t, a) (List.mem_cons_self _ rest)
      have hint : npInterp t q = r := npInterp_const t r q hq hqne
      cases k with
      | zero =>
          simp only [stripLoop, List.getD_cons_zero, hint, ha, pow_one]
          field_simp
      | succ m =>
          have hm : m < rest.length := by simpa using hk
          simp only [stripLoop, List.getD_cons_succ, hint, ha]
          rw [ih (fun p hp => hpairs p (List.mem_cons_of_mem _ hp)) _ m hm]
          have key : 1 - r * (s + d * ((1 - r * s) / (1 + r * d))) =
              1 / (1 + r * d) * (1 - r * s) := by
            field_simp
            ring
          rw [key]
          ring

/-! ### Bootstrap grid lemmas -/

theorem bootstrapGrid_length (f : ℤ) (n : ℕ) : (bootstrapGrid f n).length = n := by
  rw [bootstrapGrid, List.length_map, List.length_range]

theorem bootstrapAccruals_length (f : ℤ) (n : ℕ) : (bootstrapAccruals f n).length = n := by
  simp [bootstrapAccruals, bootstrapGrid_length]

theorem bootstrapDfs_length (quotes : List (ℝ × ℝ)) (f : ℤ) (n : ℕ) :
    (bootstrapDfs quotes f n).length = n := by
  rw [bootstrapDfs, stripLoop_length]
  simp [bootstrapGrid_length, bootstrapAccruals_length]

theorem bootstrapZeroRates_length (quotes : List (ℝ × ℝ)) (f : ℤ) (n : ℕ) :
    (bootstrapZeroRates quotes f n).length = n := by
  simp [bootstrapZeroRates, bootstrapDfs_length, bootstrapGrid_length]

theorem bootstrapGrid_getElem (f : ℤ) (n : ℕ) (i : ℕ) (hi : i < n) :
    (bootstrapGrid f n)[i]? = some (((i : ℝ) + 1) / (f : ℝ)) := by
  rw [bootstrapGrid, List.getElem?_map, List.getElem?_range hi, Option.map_some']

theorem bootstrapGrid_getD (f : ℤ) (n : ℕ) (i : ℕ) (hi : i < n) :
    (bootstrapGrid f n).getD i 0 = ((i : ℝ) + 1) / (f : ℝ) := by
  rw [List.getD_eq_getElem?_getD, bootstrapGrid_getElem f n i hi, Option.getD_some]

theorem bootstrapAccruals_getD (f : ℤ) (hf : f ≠ 0) (n : ℕ) (i : ℕ) (hi : i < n) :
    (bootstrapAccruals f n).getD i 0 = 1 / (f : ℝ) := by
  have hfR : (f : ℝ) ≠ 0 := Int.cast_ne_zero.mpr hf
  rw [bootstrapAccruals, List.getD_eq_getElem?_getD, List.getElem?_zipWith']
  cases i with
  | zero =>
      rw [bootstrapGrid_getElem f n 0 hi, List.getElem?_cons_zero,
        Option.map_some', Option.some_bind, Option.map_some', Option.getD_some]
      norm_num
  | succ k =>
      have hk : k < n := Nat.lt_of_succ_lt hi
      rw [bootstrapGrid_getElem f n (k + 1) hi, List.getElem?_cons_succ,
        bootstrapGrid_getElem f n k hk,
        Option.map_some', Option.some_bind, Option.map_some', Option.getD_some]
      push_cast
      ring

theorem zipWith_mk_map_tenor : ∀ (l1 l2 : List ℝ), l1.length ≤ l2.length →
    (List.zipWith CurvePoint.mk l1 l2).map CurvePoint.tenor = l1 := by
  intro l1
  induction l1 with
  | nil => intro l2 _; rfl
  | cons x xs ih =>
      intro l2 h
      cases l2 with
      | nil => simp at h
      | cons y ys =>
          simp only [List.zipWith_cons_cons, List.map_cons, List.cons.injEq]
          exact ⟨trivial, ih ys (by simpa using h)⟩

theorem zipWith_mk_map_rate : ∀ (l1 l2 : List ℝ), l2.length ≤ l1.length →
    (List.zipWith CurvePoint.mk l1 l2).map CurvePoint.rate = l2 := by
  intro l1
  induction l1 with
  | nil =>
      intro l2 h
      cases l2 with
      | nil => rfl
      | cons y ys => simp at h
  | cons x xs ih =>
      intro l2 h
      cases l2 with
      | nil => rfl
      | cons y ys =>
          simp only [List.zipWith_cons_cons, List.map_cons, List.cons.injEq]
          exact ⟨trivial, ih ys (by simpa using h)⟩

theorem bootstrapGrid_pairwise_lt (f : ℤ) (hf : 0 < f) (n : ℕ) :
    (bootstrapGrid f n).Pairwise (· < ·) := by
  have hfR : (0 : ℝ) < (f : ℝ) := by exact_mod_cast hf
  have hr : (List.range n).Pairwise (· < ·) := List.pairwise_lt_range n
  exact hr.map (fun i : ℕ => ((i : ℝ) + 1) / (f : ℝ))
    (fun a b hab =>
      div_lt_div_of_pos_right (by exact_mod_cast Nat.succ_lt_succ hab) hfR)

theorem bootstrap_points_ok (quotes : List (ℝ × ℝ)) (name : String) (f : ℤ)
    (hf : 0 < f) (n : ℕ) (hn : 1 ≤ n) :
    ZeroCurve.init
        (List.zipWith CurvePoint.mk (bootstrapGrid f n) (bootstrapZeroRates quotes f n))
        name (some (bootstrapDfs quotes f n)) =
      .ok ⟨bootstrapGrid f n, bootstrapZeroRates quotes f n, name,
        some (bootstrapDfs quotes f n)⟩ := by
  have hgl : (bootstrapGrid f n).length = n := bootstrapGrid_length f n
  have hzl : (bootstrapZeroRates quotes f n).length = n := bootstrapZeroRates_length quotes f n
  have hdl : (bootstrapDfs quotes f n).length = n := bootstrapDfs_length quotes f n
  have hmapt : (List.zipWith CurvePoint.mk (bootstrapGrid f n)
      (bootstrapZeroRates quotes f n)).map CurvePoint.tenor = bootstrapGrid f n :=
    zipWith_mk_map_tenor _ _ (by omega)
  have hmapr : (List.zipWith CurvePoint.mk (bootstrapGrid f n)
      (bootstrapZeroRates quotes f n)).map CurvePoint.rate = bootstrapZeroRates quotes f n :=
    zipWith_mk_map_rate _ _ (by omega)
  have hptlen : (List.zipWith CurvePoint.mk (bootstrapGrid f n)
      (bootstrapZeroRates quotes f n)).length = n := by
    rw [List.length_zipWith, hgl, hzl, min_self]
  have hsorted : (List.zipWith CurvePoint.mk (bootstrapGrid f n)
      (bootstrapZeroRates quotes f n)).Sorted ptLE := by
    have hg : (bootstrapGrid f n).Pairwise (· ≤ ·) :=
      (bootstrapGrid_pairwise_lt f hf n).imp le_of_lt
    have hpw : ((List.zipWith CurvePoint.mk (bootstrapGrid f n)
        (bootstrapZeroRates quotes f n)).map CurvePoint.tenor).Pairwise (· ≤ ·) := by
      rw [hmapt]; exact hg
    have h3 := List.pairwise_map.mp hpw
    exact h3
  have hne : List.zipWith CurvePoint.mk (bootstrapGrid f n)
      (bootstrapZeroRates quotes f n) ≠ [] := by
    intro h
    rw [h] at hptlen
    simp at hptlen
    omega
  have hpos : 0 < ((List.zipWith CurvePoint.mk (bootstrapGrid f n)
      (bootstrapZeroRates quotes f n)).headD default).tenor := by
    obtain ⟨p0, ps, hps⟩ := List.exists_cons_of_ne_nil hne
    have hmt := hmapt
    rw [hps, List.map_cons] at hmt
    have hgd : (bootstrapGrid f n).getD 0 0 = p0.tenor := by
      rw [← hmt, List.getD_cons_zero]
    rw [hps, List.headD_cons, ← hgd, bootstrapGrid_getD f n 0 hn]
    have hfR : (0 : ℝ) < (f : ℝ) := by exact_mod_cast hf
    positivity
  have hinit := ZeroCurve.init_ok
    (List.zipWith CurvePoint.mk (bootstrapGrid f n) (bootstrapZeroRates quotes f n))
    name (some (bootstrapDfs quotes f n)) hsorted hne hpos
    (by intro d hd
        simp only [Option.mem_def, Option.some.injEq] at hd
        rw [← hd, hdl, hptlen])
  rw [hinit, hmapt, hmapr]

theorem from_par_ok (quotes : List (ℝ × ℝ)) (name : String) (f : ℤ) (hf : 0 < f)
    (L : ℝ × ℝ) (hlast : (sortQuotes quotes).getLast? = some L)
    (hN : 1 ≤ npRound (L.1 * (f : ℝ))) :
    from_par_swap_dataframe quotes name f =
      .ok ⟨bootstrapGrid f (npRound (L.1 * (f : ℝ))).toNat,
        bootstrapZeroRates quotes f (npRound (L.1 * (f : ℝ))).toNat, name,
        some (bootstrapDfs quotes f (npRound (L.1 * (f : ℝ))).toNat)⟩ := by
  have hfne : ¬f ≤ 0 := not_le.mpr hf
  have hsle : ¬npRound (L.1 * (f : ℝ)) ≤ 0 := by omega
  have hn1 : 1 ≤ (npRound (L.1 * (f : ℝ))).toNat := by omega
  simp only [from_par_swap_dataframe, hlast, if_neg hfne, if_neg hsle]
  exact bootstrap_points_ok quotes name f hf _ hn1

theorem getLastD_indep {α : Type} : ∀ (l : List α), l ≠ [] → ∀ (x y : α),
    l.getLastD x = l.getLastD y := by
  intro l
  induction l with
  | nil => intro h; exact absurd rfl h
  | cons a as ih =>
      intro _ x y
      rw [List.getLastD_cons, List.getLastD_cons]

theorem getLast_eq_some_getLastD {α : Type} (l : List α) (hne : l ≠ []) (d : α) :
    l.getLast? = some (l.getLastD d) := by
  induction l generalizing d with
  | nil => exact absurd rfl hne
  | cons a as ih =>
      cases has : as with
      | nil => rfl
      | cons b bs =>
          rw [List.getLastD_cons]
          rw [← has]
          have h2 : as ≠ [] := by rw [has]; simp
          have := ih (by rw [has]; simp : as ≠ []) a
          rw [List.getLast?_cons, this]
          cases as with
          | nil => simp at h2
          | cons c cs => simp

theorem sortQuotes_ne_nil (quotes : List (ℝ × ℝ)) (hq : quotes ≠ []) :
    sortQuotes quotes ≠ [] := by
  intro h
  have hp := List.perm_insertionSort quoteLE quotes
  rw [sortQuotes] at h
  rw [h] at hp
  exact hq (List.Perm.nil_eq hp).symm

theorem chain_quoteLE_getLastD (p : ℝ × ℝ) (l : List (ℝ × ℝ))
    (h : List.Chain quoteLE p l) : p.1 ≤ (l.getLastD p).1 := by
  induction l generalizing p with
  | nil => exact le_refl _
  | cons q rest ih =>
      rw [List.chain_cons] at h
      rw [List.getLastD_cons]
      exact le_trans h.1 (ih q h.2)

theorem chain_mem_le_getLastD (a : ℝ × ℝ) (as : List (ℝ × ℝ))
    (h : List.Chain quoteLE a as) : ∀ p ∈ as, p.1 ≤ (as.getLastD a).1 := by
  induction as generalizing a with
  | nil => intro p hp; simp at hp
  | cons b bs ih =>
      intro p hp
      rw [List.chain_cons] at h
      rw [List.getLastD_cons]
      rcases List.mem_cons.mp hp with hpb | hpbs
      · rw [hpb]
        exact chain_quoteLE_getLastD b bs h.2
      · exact ih b h.2 p hpbs

theorem bootstrapTmax_is_max (quotes : List (ℝ × ℝ)) (hq : quotes ≠ []) :
    (∃ p ∈ quotes, p.1 = bootstrapTmax quotes) ∧
      ∀ p ∈ quotes, p.1 ≤ bootstrapTmax quotes := by
  have hsne : sortQuotes quotes ≠ [] := sortQuotes_ne_nil quotes hq
  have hperm : List.Perm (sortQuotes quotes) quotes := List.perm_insertionSort quoteLE quotes
  have hsorted : (sortQuotes quotes).Sorted quoteLE :=
    List.sorted_insertionSort quoteLE quotes
  constructor
  · refine ⟨(sortQuotes quotes).getLastD (0, 0), ?_, rfl⟩
    have hmem : (sortQuotes quotes).getLastD (0, 0) ∈ sortQuotes quotes := by
      cases hsq : sortQuotes quotes with
      | nil => exact absurd hsq hsne
      | cons a as =>
          rw [List.getLastD_cons]
          have : as.getLastD a = (a :: as).getLast (by simp) := by
            rw [List.getLast_eq_getLastD]
          rw [this]
          exact List.getLast_mem _
    exact hperm.mem_iff.mp hmem
  · intro p hp
    have hpmem : p ∈ sortQuotes quotes := hperm.mem_iff.mpr hp
    cases hsq : sortQuotes quotes with
    | nil => exact absurd hsq hsne
    | cons a as =>
        rw [hsq] at hpmem
        have hchain : List.Chain quoteLE a as := by
          have : (a :: as).Chain' quoteLE := by
            rw [← hsq]
            exact List.chain'_iff_pairwise.mpr hsorted
          exact this
        rw [bootstrapTmax, hsq, List.getLastD_cons]
        rcases List.mem_cons.mp hpmem with hpa | hpas
        · rw [hpa]
          exact chain_quoteLE_getLastD a as hchain
        · exact chain_mem_le_getLastD a as hchain p hpas

theorem bootstrapAccruals_getElem (f : ℤ) (n i : ℕ) (hi : i < n) :
    (bootstrapAccruals f n)[i]? = some (1 / (f : ℝ)) := by
  rw [bootstrapAccruals, List.getElem?_zipWith']
  cases i with
  | zero =>
      rw [bootstrapGrid_getElem f n 0 hi, List.getElem?_cons_zero,
        Option.map_some', Option.some_bind, Option.map_some']
      simp only [Option.some.injEq]
      norm_num
  | succ k =>
      have hk : k < n := Nat.lt_of_succ_lt hi
      rw [bootstrapGrid_getElem f n (k + 1) hi, List.getElem?_cons_succ,
        bootstrapGrid_getElem f n k hk, Option.map_some', Option.some_bind,
        Option.map_some']
      simp only [Option.some.injEq]
      push_cast
      ring

theorem bootstrapAccruals_all (f : ℤ) (n : ℕ) :
    ∀ x ∈ bootstrapAccruals f n, x = 1 / (f : ℝ) := by
  intro x hx
  obtain ⟨i, hil, hxi⟩ := List.mem_iff_getElem.mp hx
  have hi : i < n := by
    rw [bootstrapAccruals_length] at hil
    exact hil
  have h1 : (bootstrapAccruals f n)[i]? = some (1 / (f : ℝ)) :=
    bootstrapAccruals_getElem f n i hi
  have h2 : (bootstrapAccruals f n)[i]? = some ((bootstrapAccruals f n)[i]) :=
    List.getElem?_eq_getElem hil
  rw [h1] at h2
  rw [← hxi]
  exact (Option.some.injEq _ _).mp h2.symm

theorem bootstrapPairs_length (f : ℤ) (n : ℕ) :
    ((bootstrapGrid f n).zip (bootstrapAccruals f n)).length = n := by
  rw [List.length_zip, bootstrapGrid_length, bootstrapAccruals_length, min_self]

theorem bootstrapPairs_getD (f : ℤ) (n i : ℕ) (hi : i < n) :
    ((bootstrapGrid f n).zip (bootstrapAccruals f n)).getD i (0, 0) =
      (((i : ℝ) + 1) / (f : ℝ), 1 / (f : ℝ)) := by
  rw [List.getD_eq_getElem?_getD]
  have hz : ((bootstrapGrid f n).zip (bootstrapAccruals f n))[i]? =
      some (((i : ℝ) + 1) / (f : ℝ), 1 / (f : ℝ)) :=
    List.getElem?_zip_eq_some.mpr
      ⟨bootstrapGrid_getElem f n i hi, bootstrapAccruals_getElem f n i hi⟩
  rw [hz, Option.getD_some]

theorem bootstrapDfs_getD (quotes : List (ℝ × ℝ)) (f : ℤ) (n i : ℕ) (hi : i < n) :
    (bootstrapDfs quotes f n).getD i 0 =
      (1 - npInterp (((i : ℝ) + 1) / (f : ℝ)) (sortQuotes quotes) *
          (∑ j ∈ Finset.range i, 1 / (f : ℝ) * (bootstrapDfs quotes f n).getD j 0)) /
        (1 + npInterp (((i : ℝ) + 1) / (f : ℝ)) (sortQuotes quotes) * (1 / (f : ℝ))) := by
  have hlen : ((bootstrapGrid f n).zip (bootstrapAccruals f n)).length = n :=
    bootstrapPairs_length f n
  have h := stripLoop_getD (sortQuotes quotes)
    ((bootstrapGrid f n).zip (bootstrapAccruals f n)) 0 i (by rw [hlen]; exact hi)
  rw [bootstrapPairs_getD f n i hi] at h
  have hsum : ∀ j ∈ Finset.range i,
      (((bootstrapGrid f n).zip (bootstrapAccruals f n)).getD j (0, 0)).2 *
        (stripLoop (sortQuotes quotes)
          ((bootstrapGrid f n).zip (bootstrapAccruals f n)) 0).getD j 0 =
      1 / (f : ℝ) * (stripLoop (sortQuotes quotes)
        ((bootstrapGrid f n).zip (bootstrapAccruals f n)) 0).getD j 0 := by
    intro j hj
    rw [bootstrapPairs_getD f n j (lt_trans (Finset.mem_range.mp hj) hi)]
  rw [Finset.sum_congr rfl hsum] at h
  rw [bootstrapDfs]
  rw [h, zero_add]

theorem bootstrapDfs_flat (quotes : List (ℝ × ℝ)) (f : ℤ) (n : ℕ) (r : ℝ)
    (hq : quotes ≠ []) (hflat : ∀ p ∈ quotes, p.2 = r)
    (hden : 1 + r * (1 / (f : ℝ)) ≠ 0) (i : ℕ) (hi : i < n) :
    (bootstrapDfs quotes f n).getD i 0 = (1 / (1 + r * (1 / (f : ℝ)))) ^ (i + 1) := by
  have hsflat : ∀ p ∈ sortQuotes quotes, p.2 = r := fun p hp =>
    hflat p ((List.perm_insertionSort quoteLE quotes).subset hp)
  have hsne := sortQuotes_ne_nil quotes hq
  have hpairsflat : ∀ p ∈ (bootstrapGrid f n).zip (bootstrapAccruals f n),
      p.2 = 1 / (f : ℝ) := by
    intro p hp
    obtain ⟨a, b⟩ := p
    exact bootstrapAccruals_all f n b (List.of_mem_zip hp).2
  have h := stripLoop_flat (sortQuotes quotes) r (1 / (f : ℝ)) hsflat hsne hden
    ((bootstrapGrid f n).zip (bootstrapAccruals f n)) hpairsflat 0 i
    (by rw [bootstrapPairs_length]; exact hi)
  rw [bootstrapDfs, h]
  ring

theorem zipWith_getD (g : ℝ → ℝ → ℝ) :
    ∀ (l1 l2 : List ℝ) (i : ℕ), i < l1.length → i < l2.length →
      (List.zipWith g l1 l2).getD i 0 = g (l1.getD i 0) (l2.getD i 0) := by
  intro l1
  induction l1 with
  | nil => intro l2 i h1 _; simp at h1
  | cons x xs ih =>
      intro l2 i h1 h2
      cases l2 with
      | nil => simp at h2
      | cons y ys =>
          cases i with
          | zero => simp [List.zipWith_cons_cons]
          | succ k =>
              simp only [List.zipWith_cons_cons, List.getD_cons_succ]
              exact ih ys k (by simpa using h1) (by simpa using h2)

theorem mem_exists_getD (l : List ℝ) (z : ℝ) (hz : z ∈ l) :
    ∃ i, i < l.length ∧ l.getD i 0 = z := by
  obtain ⟨i, h, hv⟩ := List.mem_iff_getElem.mp hz
  refine ⟨i, h, ?_⟩
  rw [List.getD_eq_getElem l 0 h]
  exact hv

theorem bootstrapZeroRates_flat (quotes : List (ℝ × ℝ)) (f : ℤ) (n : ℕ) (r : ℝ)
    (hq : quotes ≠ []) (hflat : ∀ p ∈ quotes, p.2 = r) (hf : 0 < f)
    (hpos : 0 < 1 + r * (1 / (f : ℝ))) :
    ∀ z ∈ bootstrapZeroRates quotes f n,
      z = (f : ℝ) * Real.log (1 + r * (1 / (f : ℝ))) := by
  intro z hz
  have hfR : (0 : ℝ) < (f : ℝ) := by exact_mod_cast hf
  have hfne : (f : ℝ) ≠ 0 := ne_of_gt hfR
  obtain ⟨i, hil, hzi⟩ := mem_exists_getD _ z hz
  rw [bootstrapZeroRates_length] at hil
  rw [bootstrapZeroRates] at hzi
  rw [zipWith_getD _ _ _ i (by rw [bootstrapDfs_length]; exact hil)
    (by rw [bootstrapGrid_length]; exact hil)] at hzi
  rw [bootstrapDfs_flat quotes f n r hq hflat (ne_of_gt hpos) i hil,
    bootstrapGrid_getD f n i hil] at hzi
  rw [← hzi]
  have hiR : ((i : ℝ) + 1) ≠ 0 := by positivity
  rw [one_div, Real.log_pow, Real.log_inv]
  push_cast
  field_simp
  ring

theorem npRound_intCast (m : ℤ) : npRound ((m : ℝ)) = m := by
  simp only [npRound, Int.floor_intCast, sub_self]
  norm_num

/-! ### Claim theorems -/

/-- C1: for every nonempty quote table, `from_par_swap_dataframe` raises
`ValueError` when the payment frequency `f` is nonpositive or when the rounded
node count `N = round(t_max·f)` is nonpositive; otherwise it builds the uniform
grid `t_i = i/f` (`i = 1..N`), linearly interpolates the par rate at each node
against the sorted quote table (flat beyond the range — `npInterp`), solves the
discount factors left to right by `DF_1 = 1/(1 + r_1·Δ)` and
`DF_i = (1 − r_i·Σ_{j<i} Δ·DF_j)/(1 + r_i·Δ)` with uniform accrual `Δ = 1/f`,
and stores the zero rates `−ln(DF_i)/t_i`.  `t_max` (the last tenor of the
sorted table) is the largest quote tenor. -/
theorem C1_bootstrap_coupon_stripping (quotes : List (ℝ × ℝ)) (name : String)
    (f : ℤ) (hq : quotes ≠ []) :
    ((∃ p ∈ quotes, p.1 = bootstrapTmax quotes) ∧
      (∀ p ∈ quotes, p.1 ≤ bootstrapTmax quotes)) ∧
    (f ≤ 0 → from_par_swap_dataframe quotes name f = .error .value) ∧
    (0 < f → npRound (bootstrapTmax quotes * (f : ℝ)) ≤ 0 →
      from_par_swap_dataframe quotes name f = .error .value) ∧
    (0 < f → 1 ≤ npRound (bootstrapTmax quotes * (f : ℝ)) →
      ∃ c : ZeroCurve, from_par_swap_dataframe quotes name f = .ok c ∧
        c.tenors = bootstrapGrid f (npRound (bootstrapTmax quotes * (f : ℝ))).toNat ∧
        (∀ i : ℕ, i < (npRound (bootstrapTmax quotes * (f : ℝ))).toNat →
          c.tenors.getD i 0 = ((i : ℝ) + 1) / (f : ℝ)) ∧
        ∃ d : List ℝ, c.dfs = some d ∧
          d.length = (npRound (bootstrapTmax quotes * (f : ℝ))).toNat ∧
          d.getD 0 0 =
            1 / (1 + npInterp (((0 : ℝ) + 1) / (f : ℝ)) (sortQuotes quotes) * (1 / (f : ℝ))) ∧
          (∀ i : ℕ, i < (npRound (bootstrapTmax quotes * (f : ℝ))).toNat →
            d.getD i 0 =
              (1 - npInterp (((i : ℝ) + 1) / (f : ℝ)) (sortQuotes quotes) *
                  (∑ j ∈ Finset.range i, 1 / (f : ℝ) * d.getD j 0)) /
                (1 + npInterp (((i : ℝ) + 1) / (f : ℝ)) (sortQuotes quotes) * (1 / (f : ℝ)))) ∧
          c.rates = List.zipWith (fun df t => -Real.log df / t) d c.tenors) := by
  refine ⟨bootstrapTmax_is_max quotes hq, ?_, ?_, ?_⟩
  · intro hf0
    simp only [from_par_swap_dataframe, if_pos hf0]
  · intro hf hs
    have hlast := getLast_eq_some_getLastD (sortQuotes quotes)
      (sortQuotes_ne_nil quotes hq) (0, 0)
    simp only [bootstrapTmax] at hs
    simp only [from_par_swap_dataframe, if_neg (not_le.mpr hf), hlast, if_pos hs]
  · intro hf hN
    simp only [bootstrapTmax] at hN
    have hlast := getLast_eq_some_getLastD (sortQuotes quotes)
      (sortQuotes_ne_nil quotes hq) (0, 0)
    have hok := from_par_ok quotes name f hf _ hlast hN
    have hN0 : 0 < (npRound (((sortQuotes quotes).getLastD (0, 0)).1 * (f : ℝ))).toNat := by
      omega
    refine ⟨_, hok, rfl, ?_, bootstrapDfs quotes f _, rfl, bootstrapDfs_length quotes f _,
      ?_, ?_, rfl⟩
    · intro i hi
      simp only [bootstrapTmax] at hi
      exact bootstrapGrid_getD f _ i hi
    · rw [bootstrapDfs_getD quotes f _ 0 hN0]
      simp
    · intro i hi
      simp only [bootstrapTmax] at hi
      exact bootstrapDfs_getD quotes f _ i hi

/-- C1 witness: concrete instances of both the failure branch (`f = -1`) and
the success branch (`f = 4`, a single 1-year quote, so `N = 4`). -/
theorem C1_bootstrap_coupon_stripping_witness :
    from_par_swap_dataframe [((1 : ℝ), 1 / 20)] "w" (-1) = .error .value ∧
    (∃ c : ZeroCurve, from_par_swap_dataframe [((1 : ℝ), 1 / 20)] "w" 4 = .ok c ∧
      c.tenors.getD 1 0 = ((1 : ℝ) + 1) / ((4 : ℤ) : ℝ)) := by
  have htmax : bootstrapTmax [((1 : ℝ), 1 / 20)] = 1 := by
    simp [bootstrapTmax, sortQuotes, List.insertionSort, List.orderedInsert]
  have hround : npRound (bootstrapTmax [((1 : ℝ), 1 / 20)] * ((4 : ℤ) : ℝ)) = 4 := by
    rw [htmax]
    have h14 : (1 : ℝ) * ((4 : ℤ) : ℝ) = ((4 : ℤ) : ℝ) := by norm_num
    rw [h14, npRound_intCast]
  constructor
  · exact (C1_bootstrap_coupon_stripping [((1 : ℝ), 1 / 20)] "w" (-1)
      (by simp)).2.1 (by norm_num)
  · obtain ⟨c, hc, -, hgrid, -⟩ :=
      (C1_bootstrap_coupon_stripping [((1 : ℝ), 1 / 20)] "w" 4 (by simp)).2.2.2
      (by norm_num) (by rw [hround]; norm_num)
    refine ⟨c, hc, ?_⟩
    have h := hgrid 1 (by rw [hround]; norm_num)
    simpa using h

/-- C2 (amended): bootstrapping a quote table that all carries one uniform par
rate `r` produces a curve whose zero rate at every grid node equals the
constant `f·ln(1 + r/f)` exactly — the continuously-compounded equivalent of
the simple par rate, not `r` itself. -/
theorem C2_flat_bootstrap_constant (quotes : List (ℝ × ℝ)) (name : String)
    (f : ℤ) (r : ℝ) (hq : quotes ≠ []) (hflat : ∀ p ∈ quotes, p.2 = r)
    (hf : 0 < f) (hpos : 0 < 1 + r * (1 / (f : ℝ)))
    (hN : 1 ≤ npRound (bootstrapTmax quotes * (f : ℝ))) :
    ∃ c : ZeroCurve, from_par_swap_dataframe quotes name f = .ok c ∧
      c.rates ≠ [] ∧
      ∀ z ∈ c.rates, z = (f : ℝ) * Real.log (1 + r * (1 / (f : ℝ))) := by
  simp only [bootstrapTmax] at hN
  have hlast := getLast_eq_some_getLastD (sortQuotes quotes)
    (sortQuotes_ne_nil quotes hq) (0, 0)
  have hok := from_par_ok quotes name f hf _ hlast hN
  refine ⟨_, hok, ?_, ?_⟩
  · show bootstrapZeroRates quotes f
      (npRound (((sortQuotes quotes).getLastD (0, 0)).1 * (f : ℝ))).toNat ≠ []
    have hlen := bootstrapZeroRates_length quotes f
      (npRound (((sortQuotes quotes).getLastD (0, 0)).1 * (f : ℝ))).toNat
    intro hnil
    rw [hnil, List.length_nil] at hlen
    omega
  · exact bootstrapZeroRates_flat quotes f _ r hq hflat hf hpos

/-- Bounding `ln(81/80)` strictly below `(0.05 - 1e-9)/4`, via
`exp x ≥ (1 + x/2)²`. -/
theorem log_81_80_lt : Real.log (81 / 80) < 49999999 / 4000000000 := by
  have h1 : (1 : ℝ) + 49999999 / 4000000000 / 2 ≤ Real.exp (49999999 / 4000000000 / 2) := by
    have := Real.add_one_le_exp ((49999999 : ℝ) / 4000000000 / 2)
    linarith
  have h2 : ((1 : ℝ) + 49999999 / 4000000000 / 2) ^ 2 ≤
      Real.exp (49999999 / 4000000000 / 2) ^ 2 :=
    pow_le_pow_left (by norm_num) h1 2
  have h3 : Real.exp ((49999999 : ℝ) / 4000000000 / 2) ^ 2 =
      Real.exp (49999999 / 4000000000) := by
    rw [sq, ← Real.exp_add]
    norm_num
  have h4 : (81 : ℝ) / 80 < ((1 : ℝ) + 49999999 / 4000000000 / 2) ^ 2 := by
    norm_num
  have h5 : (81 : ℝ) / 80 < Real.exp (49999999 / 4000000000) := by
    rw [← h3]
    exact lt_of_lt_of_le h4 h2
  exact (Real.log_lt_iff_lt_exp (by norm_num)).mpr h5

/-- C2 counterexample: a flat 5% quote grid spanning the whole 1-year
bootstrap range at quarterly frequency yields a first-node zero rate of
`4·ln(81/80) ≈ 4.969%`, which differs from `5%` by far more than the claimed
`1e-9` tolerance, so the flat-input invariant fails as stated. -/
theorem C2_flat_bootstrap_counterexample :
    ∃ c : ZeroCurve,
      from_par_swap_dataframe
        [((1 : ℝ) / 4, 1 / 20), (1 / 2, 1 / 20), (3 / 4, 1 / 20), (1, 1 / 20)]
        "SONIA OIS Discount" 4 = .ok c ∧
      ∃ z ∈ c.rates, ¬|z - 1 / 20| ≤ 1 / 1000000000 := by
  have hq : ([((1 : ℝ) / 4, 1 / 20), (1 / 2, 1 / 20), (3 / 4, 1 / 20), (1, 1 / 20)] :
      List (ℝ × ℝ)) ≠ [] := by simp
  have hflat : ∀ p ∈ ([((1 : ℝ) / 4, 1 / 20), (1 / 2, 1 / 20), (3 / 4, 1 / 20),
      (1, 1 / 20)] : List (ℝ × ℝ)), p.2 = 1 / 20 := by
    intro p hp
    simp only [List.mem_cons, List.not_mem_nil, or_false] at hp
    rcases hp with h | h | h | h <;> rw [h]
  have hsorted : List.Sorted quoteLE
      ([((1 : ℝ) / 4, 1 / 20), (1 / 2, 1 / 20), (3 / 4, 1 / 20), (1, 1 / 20)] :
        List (ℝ × ℝ)) := by
    norm_num [List.sorted_cons, quoteLE]
  have hsq : sortQuotes
      ([((1 : ℝ) / 4, 1 / 20), (1 / 2, 1 / 20), (3 / 4, 1 / 20), (1, 1 / 20)] :
        List (ℝ × ℝ)) =
      [((1 : ℝ) / 4, 1 / 20), (1 / 2, 1 / 20), (3 / 4, 1 / 20), (1, 1 / 20)] := by
    rw [sortQuotes]
    exact hsorted.insertionSort_eq
  have hlast : (sortQuotes
      ([((1 : ℝ) / 4, 1 / 20), (1 / 2, 1 / 20), (3 / 4, 1 / 20), (1, 1 / 20)] :
        List (ℝ × ℝ))).getLast? = some ((1 : ℝ), 1 / 20) := by
    rw [hsq]
    rfl
  have hround : npRound ((1 : ℝ) * ((4 : ℤ) : ℝ)) = 4 := by
    have h14 : (1 : ℝ) * ((4 : ℤ) : ℝ) = ((4 : ℤ) : ℝ) := by norm_num
    rw [h14, npRound_intCast]
  have hok := from_par_ok
    [((1 : ℝ) / 4, 1 / 20), (1 / 2, 1 / 20), (3 / 4, 1 / 20), (1, 1 / 20)]
    "SONIA OIS Discount" 4 (by norm_num) ((1 : ℝ), 1 / 20) hlast
    (by rw [hround]; norm_num)
  refine ⟨_, hok, ?_⟩
  have hlen : (bootstrapZeroRates
      [((1 : ℝ) / 4, 1 / 20), (1 / 2, 1 / 20), (3 / 4, 1 / 20), (1, 1 / 20)] 4
      (npRound ((1 : ℝ) * ((4 : ℤ) : ℝ))).toNat).length = 4 := by
    rw [bootstrapZeroRates_length, hround]
    rfl
  have hmem : (bootstrapZeroRates
      [((1 : ℝ) / 4, 1 / 20), (1 / 2, 1 / 20), (3 / 4, 1 / 20), (1, 1 / 20)] 4
      (npRound ((1 : ℝ) * ((4 : ℤ) : ℝ))).toNat).getD 0 0 ∈
      bootstrapZeroRates
        [((1 : ℝ) / 4, 1 / 20), (1 / 2, 1 / 20), (3 / 4, 1 / 20), (1, 1 / 20)] 4
        (npRound ((1 : ℝ) * ((4 : ℤ) : ℝ))).toNat := by
    rw [List.getD_eq_getElem _ 0 (by rw [hlen]; norm_num)]
    exact List.getElem_mem _
  refine ⟨_, hmem, ?_⟩
  have hval := bootstrapZeroRates_flat
    [((1 : ℝ) / 4, 1 / 20), (1 / 2, 1 / 20), (3 / 4, 1 / 20), (1, 1 / 20)] 4
    (npRound ((1 : ℝ) * ((4 : ℤ) : ℝ))).toNat (1 / 20) hq hflat (by norm_num)
    (by norm_num) _ hmem
  rw [hval]
  have hinner : (1 : ℝ) + 1 / 20 * (1 / ((4 : ℤ) : ℝ)) = 81 / 80 := by
    norm_num
  rw [hinner]
  intro habs
  have hlog := log_81_80_lt
  have hz : ((4 : ℤ) : ℝ) * Real.log (81 / 80) < 49999999 / 1000000000 := by
    have : ((4 : ℤ) : ℝ) = 4 := by norm_num
    rw [this]
    linarith
  have := abs_le.mp habs
  have hge : (1 : ℝ) / 20 - 1 / 1000000000 ≤ ((4 : ℤ) : ℝ) * Real.log (81 / 80) := by
    linarith [this.1]
  have : (1 : ℝ) / 20 - 1 / 1000000000 = 49999999 / 1000000000 := by norm_num
  linarith

/-- C2 witness: the amended flat-input invariant at the concrete flat 5%
quarterly quote grid of the counterexample scenario (different quote list from
the counterexample's, same curve family). -/
theorem C2_flat_bootstrap_constant_witness :
    ∃ c : ZeroCurve,
      from_par_swap_dataframe [((1 : ℝ) / 2, 1 / 20), (1, 1 / 20)] "flat" 4 = .ok c ∧
      c.rates ≠ [] ∧
      ∀ z ∈ c.rates, z = ((4 : ℤ) : ℝ) * Real.log (1 + 1 / 20 * (1 / ((4 : ℤ) : ℝ))) := by
  apply C2_flat_bootstrap_constant
  · simp
  · intro p hp
    simp only [List.mem_cons, List.not_mem_nil, or_false] at hp
    rcases hp with h | h <;> rw [h]
  · norm_num
  · norm_num
  · have hsorted : List.Sorted quoteLE
        ([((1 : ℝ) / 2, 1 / 20), (1, 1 / 20)] : List (ℝ × ℝ)) := by
      simp only [List.sorted_cons, List.mem_cons, List.not_mem_nil, or_false]
      refine ⟨?_, ?_⟩
      · intro b hb
        rw [hb]
        simp only [quoteLE]
        norm_num
      · simp
    have htm : bootstrapTmax ([((1 : ℝ) / 2, 1 / 20), (1, 1 / 20)] : List (ℝ × ℝ)) = 1 := by
      rw [bootstrapTmax, sortQuotes, hsorted.insertionSort_eq]
      rfl
    rw [htm]
    have h14 : (1 : ℝ) * ((4 : ℤ) : ℝ) = ((4 : ℤ) : ℝ) := by norm_num
    rw [h14, npRound_intCast]
    norm_num

/-- C5: `forward_rate(start, end)` raises `InvalidRangeError` (`ValueError`)
exactly when `end ≤ start`, and for `end > start` it returns
`ln(DF(start)/DF(end)) / (end − start)`. -/
theorem C5_forward_rate_range (c : ZeroCurve) (s e : ℝ) :
    (c.forward_rate s e = .error .value ↔ e ≤ s) ∧
    (s < e → c.forward_rate s e =
      .ok (Real.log (c.discount_factor s / c.discount_factor e) / (e - s))) := by
  constructor
  · constructor
    · intro h
      by_cases he : e ≤ s
      · exact he
      · rw [ZeroCurve.forward_rate, if_neg he] at h
        exact absurd h (by simp)
    · intro he
      rw [ZeroCurve.forward_rate, if_pos he]
  · intro hlt
    rw [ZeroCurve.forward_rate, if_neg (not_le.mpr hlt)]

/-- C5 witness: `forward_rate(2, 2)` and `forward_rate(3, 1)` both raise, and
`forward_rate(1, 2)` returns the log-ratio formula, on a concrete flat curve. -/
theorem C5_forward_rate_range_witness :
    (ZeroCurve.mk [1, 2] [1 / 25, 1 / 25] "w" none).forward_rate 2 2 =
      .error .value ∧
    (ZeroCurve.mk [1, 2] [1 / 25, 1 / 25] "w" none).forward_rate 3 1 =
      .error .value ∧
    (ZeroCurve.mk [1, 2] [1 / 25, 1 / 25] "w" none).forward_rate 1 2 =
      .ok (Real.log
        ((ZeroCurve.mk [1, 2] [1 / 25, 1 / 25] "w" none).discount_factor 1 /
          (ZeroCurve.mk [1, 2] [1 / 25, 1 / 25] "w" none).discount_factor 2) /
        (2 - 1)) :=
  ⟨(C5_forward_rate_range (ZeroCurve.mk [1, 2] [1 / 25, 1 / 25] "w" none) 2 2).1.mpr
      (le_refl 2),
   (C5_forward_rate_range (ZeroCurve.mk [1, 2] [1 / 25, 1 / 25] "w" none) 3 1).1.mpr
      (by norm_num),
   (C5_forward_rate_range (ZeroCurve.mk [1, 2] [1 / 25, 1 / 25] "w" none) 1 2).2
      (by norm_num)⟩

theorem shiftForTenor_empty (t : ℝ) : shiftForTenor [] t = .error .index := rfl

theorem except_bind_error {α β : Type} (e : PyErr) (f : α → Except PyErr β) :
    (Except.error e >>= f : Except PyErr β) = Except.error e := rfl

/-- C10: with an empty `tenor_shifts` map, `apply_non_parallel_shift` indexes
`sorted_tenors[0]` of the empty key list and fails with an uncaught
`IndexError` for every curve that has at least one node; it never returns a
curve. -/
theorem C10_nonparallel_empty_shift (c : ZeroCurve) (hne : c.tenors ≠ []) :
    apply_non_parallel_shift c [] = .error .index := by
  cases hT : c.tenors with
  | nil => exact absurd hT hne
  | cons t0 ts =>
      simp [apply_non_parallel_shift, hT, shiftForTenor_empty, List.mapM.loop,
        except_bind_error]

/-- C10 witness: the empty-map failure on a concrete one-node curve. -/
theorem C10_nonparallel_empty_shift_witness :
    apply_non_parallel_shift (ZeroCurve.mk [1] [1 / 25] "w" none) [] =
      .error .index :=
  C10_nonparallel_empty_shift (ZeroCurve.mk [1] [1 / 25] "w" none) (by simp)

/-- C8 (amended): `ZeroCurve` construction fails in exactly the three claimed
cases — empty point list, nonpositive smallest tenor, or a supplied
discount-factor array of mismatched length — and otherwise atomically produces
a fully valid curve; however, the empty-list case fails with an uncaught
`IndexError` (`pts[0]` on an empty `sorted(...)` result), not with
`InvalidCurveError` (`ValueError`) as the spec's taxonomy claims; the other
two cases do raise `ValueError`. -/
theorem C8_init_error_classification (pts : List CurvePoint) (name : String)
    (dfs? : Option (List ℝ)) :
    (ZeroCurve.init pts name dfs? = .error .index ↔ pts = []) ∧
    (pts ≠ [] →
      (ZeroCurve.init pts name dfs? = .error .value ↔
        (∃ p ∈ pts, p.tenor ≤ 0) ∨ ∃ d, dfs? = some d ∧ d.length ≠ pts.length)) ∧
    (pts ≠ [] → (∀ p ∈ pts, 0 < p.tenor) → (∀ d ∈ dfs?, d.length = pts.length) →
      ∃ c, ZeroCurve.init pts name dfs? = .ok c ∧ c.Valid) := by
  have hperm : List.Perm (List.insertionSort ptLE pts) pts :=
    List.perm_insertionSort ptLE pts
  have hsorted : (List.insertionSort ptLE pts).Sorted ptLE :=
    List.sorted_insertionSort ptLE pts
  have hlen : (List.insertionSort ptLE pts).length = pts.length := hperm.length_eq
  refine ⟨?_, ?_, ?_⟩
  · cases hS : List.insertionSort ptLE pts with
    | nil =>
        have hempty : pts = [] := by
          have := hlen
          rw [hS] at this
          exact List.eq_nil_of_length_eq_zero this.symm
        simp only [ZeroCurve.init, hS, hempty]
        simp
    | cons p0 rest =>
        have hne : pts ≠ [] := by
          intro h
          subst h
          simp at hS
        simp only [ZeroCurve.init, hS]
        constructor
        · intro h
          by_cases hp : p0.tenor ≤ 0
          · rw [if_pos hp] at h
            exact absurd h (by simp)
          · rw [if_neg hp] at h
            cases dfs? with
            | none => exact absurd h (by simp)
            | some d =>
                dsimp only at h
                by_cases hd : d.length ≠ ((p0 :: rest).map CurvePoint.tenor).length
                · rw [if_pos hd] at h
                  exact absurd h (by simp)
                · rw [if_neg hd] at h
                  exact absurd h (by simp)
        · intro h
          exact absurd h hne
  · intro hne
    cases hS : List.insertionSort ptLE pts with
    | nil =>
        exfalso
        rw [hS] at hlen
        exact hne (List.eq_nil_of_length_eq_zero hlen.symm)
    | cons p0 rest =>
        have hmemp0 : p0 ∈ pts := hperm.subset (by rw [hS]; exact List.mem_cons_self _ _)
        have hmin : ∀ p ∈ pts, p0.tenor ≤ p.tenor := by
          intro p hp
          have hps : p ∈ p0 :: rest := by
            rw [← hS]
            exact hperm.mem_iff.mpr hp
          rcases List.mem_cons.mp hps with h | h
          · rw [h]
          · have hs2 : (p0 :: rest).Sorted ptLE := by rw [← hS]; exact hsorted
            exact List.rel_of_sorted_cons hs2 p h
        have hmaplen : ((p0 :: rest).map CurvePoint.tenor).length = pts.length := by
          rw [List.length_map, ← hS, hlen]
        simp only [ZeroCurve.init, hS]
        constructor
        · intro h
          by_cases hp : p0.tenor ≤ 0
          · exact Or.inl ⟨p0, hmemp0, hp⟩
          · rw [if_neg hp] at h
            cases dfs? with
            | none => exact absurd h (by simp)
            | some d =>
                dsimp only at h
                by_cases hd : d.length ≠ ((p0 :: rest).map CurvePoint.tenor).length
                · refine Or.inr ⟨d, rfl, ?_⟩
                  rw [← hmaplen]
                  exact hd
                · rw [if_neg hd] at h
                  exact absurd h (by simp)
        · intro h
          rcases h with ⟨p, hp, hple⟩ | ⟨d, hd, hdlen⟩
          · have hp0 : p0.tenor ≤ 0 := le_trans (hmin p hp) hple
            rw [if_pos hp0]
          · by_cases hp : p0.tenor ≤ 0
            · rw [if_pos hp]
            · rw [if_neg hp, hd]
              dsimp only
              rw [if_pos]
              rw [hmaplen]
              exact hdlen
  · intro hne hpos hdlen
    cases hS : List.insertionSort ptLE pts with
    | nil =>
        exfalso
        rw [hS] at hlen
        exact hne (List.eq_nil_of_length_eq_zero hlen.symm)
    | cons p0 rest =>
        have hmemp0 : p0 ∈ pts := hperm.subset (by rw [hS]; exact List.mem_cons_self _ _)
        have hp0 : 0 < p0.tenor := hpos p0 hmemp0
        have hmaplen : ((p0 :: rest).map CurvePoint.tenor).length = pts.length := by
          rw [List.length_map, ← hS, hlen]
        have hok : ZeroCurve.init pts name dfs? =
            .ok (ZeroCurve.mk ((p0 :: rest).map CurvePoint.tenor)
              ((p0 :: rest).map CurvePoint.rate) name dfs?) := by
          simp only [ZeroCurve.init, hS, if_neg (not_le.mpr hp0)]
          cases dfs? with
          | none => rfl
          | some d =>
              dsimp only
              rw [if_neg (by rw [hmaplen]; exact not_ne_iff.mpr (hdlen d rfl))]
        exact ⟨_, hok, ZeroCurve.init_valid pts name dfs? _ hok⟩

/-- C8 counterexample: on the empty point list, construction fails with an
uncaught `IndexError` (from `sorted(points)[0]`), not with the claimed
`InvalidCurveError`/`ValueError`, so the error classification of the claim is
wrong for that case. -/
theorem C8_init_error_classification_counterexample :
    ZeroCurve.init [] "x" none = .error .index ∧ PyErr.index ≠ PyErr.value :=
  ⟨rfl, by simp⟩

/-- C8 witness: a nonpositive-tenor failure, a mismatched discount-factor
failure, and a successful atomic construction, obtained from the
classification theorem at concrete inputs. -/
theorem C8_init_error_classification_witness :
    ZeroCurve.init [CurvePoint.mk (-1) (1 / 25)] "x" none = .error .value ∧
    ZeroCurve.init [CurvePoint.mk 1 (1 / 25)] "x" (some [1, 2]) = .error .value ∧
    ∃ c, ZeroCurve.init [CurvePoint.mk 1 (1 / 25)] "x" none = .ok c ∧ c.Valid := by
  refine ⟨?_, ?_, ?_⟩
  · exact ((C8_init_error_classification [CurvePoint.mk (-1) (1 / 25)] "x"
      none).2.1 (by simp)).mpr
      (Or.inl ⟨CurvePoint.mk (-1) (1 / 25), List.mem_cons_self _ _, by norm_num⟩)
  · exact ((C8_init_error_classification [CurvePoint.mk 1 (1 / 25)] "x"
      (some [1, 2])).2.1 (by simp)).mpr
      (Or.inr ⟨[1, 2], rfl, by simp⟩)
  · exact (C8_init_error_classification [CurvePoint.mk 1 (1 / 25)] "x" none).2.2
      (by simp)
      (by intro p hp
          simp only [List.mem_cons, List.not_mem_nil, or_false] at hp
          rw [hp]
          norm_num)
      (by intro d hd; simp at hd)

/-- C4 (amended): `discount_factor(0) = 1` for every curve; and
`discount_factor` is non-increasing over all tenors for every curve without a
stored discount-factor cache whose node tenors are strictly increasing and
whose stored zero rates are non-negative and nondecreasing along the nodes.
(Non-negativity alone is not enough: a decreasing non-negative rate profile
makes `r(t)·t` fall and the discount factor rise — see the counterexample.) -/
theorem C4_discount_factor_properties :
    (∀ c : ZeroCurve, c.discount_factor 0 = 1) ∧
    (∀ c : ZeroCurve, c.dfs = none → c.tenors ≠ [] →
      c.rates.length = c.tenors.length → c.tenors.Chain' (· < ·) →
      c.rates.Chain' (· ≤ ·) → (∀ r ∈ c.rates, 0 ≤ r) →
      ∀ t1 t2 : ℝ, t1 ≤ t2 → c.discount_factor t2 ≤ c.discount_factor t1) := by
  constructor
  · intro c
    rw [ZeroCurve.discount_factor, if_pos (le_refl (0 : ℝ))]
  · intro c hdfs hne hlen htc hrc hall t1 t2 h12
    exact c.discount_factor_antitone_nocache hdfs hne hlen htc hrc hall t1 t2 h12

/-- C4 counterexample: the curve with nodes `(1, 0.5)` and `(2, 0)` has
non-negative stored zero rates, yet `DF(1) = e^{-1/2} < 1 = DF(2)`, so
`discount_factor` is not non-increasing for every curve with non-negative
rates. -/
theorem C4_discount_factor_counterexample :
    ∃ c : ZeroCurve,
      ZeroCurve.init [CurvePoint.mk 1 (1 / 2), CurvePoint.mk 2 0] "cx" none = .ok c ∧
      (∀ r ∈ c.rates, 0 ≤ r) ∧
      c.discount_factor 1 < c.discount_factor 2 := by
  have hs : List.Sorted ptLE [CurvePoint.mk 1 (1 / 2), CurvePoint.mk 2 0] := by
    norm_num [List.sorted_cons, ptLE]
  have hinit := ZeroCurve.init_ok [CurvePoint.mk 1 (1 / 2), CurvePoint.mk 2 0]
    "cx" none hs (by simp) (by rw [List.headD_cons]; norm_num)
    (by intro d hd; simp at hd)
  refine ⟨_, hinit, ?_, ?_⟩
  · intro r hr
    simp only [List.map_cons, List.map_nil, List.mem_cons, List.not_mem_nil,
      or_false] at hr
    rcases hr with h | h
    · rw [h]
      norm_num
    · rw [h]
  · have hz1 : (ZeroCurve.mk
        ([CurvePoint.mk 1 (1 / 2), CurvePoint.mk 2 0].map CurvePoint.tenor)
        ([CurvePoint.mk 1 (1 / 2), CurvePoint.mk 2 0].map CurvePoint.rate)
        "cx" none).zero_rate 1 = 1 / 2 := by
      rw [ZeroCurve.zero_rate]
      rw [if_neg (by norm_num)]
      rw [if_neg (by simp [List.getLastD])]
      simp [npInterp, List.zip]
    have hz2 : (ZeroCurve.mk
        ([CurvePoint.mk 1 (1 / 2), CurvePoint.mk 2 0].map CurvePoint.tenor)
        ([CurvePoint.mk 1 (1 / 2), CurvePoint.mk 2 0].map CurvePoint.rate)
        "cx" none).zero_rate 2 = 0 := by
      rw [ZeroCurve.zero_rate]
      rw [if_neg (by norm_num)]
      rw [if_pos (by simp [List.getLastD])]
      simp [List.getLastD]
    rw [ZeroCurve.discount_factor_nocache _ rfl 1,
      ZeroCurve.discount_factor_nocache _ rfl 2]
    rw [if_neg (by norm_num), if_neg (by norm_num), hz1, hz2]
    apply Real.exp_lt_exp.mpr
    norm_num

/-- C4 witness: the amended monotonicity applied to a concrete cache-less
curve with non-negative nondecreasing rates, plus `DF(0) = 1` there. -/
theorem C4_discount_factor_properties_witness :
    (ZeroCurve.mk [1, 2] [1 / 100, 1 / 50] "w" none).discount_factor 0 = 1 ∧
    (ZeroCurve.mk [1, 2] [1 / 100, 1 / 50] "w" none).discount_factor 3 ≤
      (ZeroCurve.mk [1, 2] [1 / 100, 1 / 50] "w" none).discount_factor (1 / 2) := by
  constructor
  · exact C4_discount_factor_properties.1 (ZeroCurve.mk [1, 2] [1 / 100, 1 / 50] "w" none)
  · exact C4_discount_factor_properties.2 (ZeroCurve.mk [1, 2] [1 / 100, 1 / 50] "w" none)
      rfl (by simp) (by simp)
      (by norm_num [List.chain'_cons, List.chain'_singleton])
      (by norm_num [List.chain'_cons, List.chain'_singleton])
      (by intro r hr
          simp only [List.mem_cons, List.not_mem_nil, or_false] at hr
          rcases hr with h | h <;> rw [h] <;> norm_num)
      (1 / 2) 3 (by norm_num)

/-! ### Schedule lemmas -/

theorem daysInMonth_ge_28 (y m : ℤ) : 28 ≤ daysInMonth y m := by
  unfold daysInMonth
  split
  · split <;> norm_num
  · split <;> norm_num

theorem addMonths_addMonths (d : Date) (a b : ℤ) (hd : d.day ≤ 28) :
    addMonths (addMonths d a) b = addMonths d (a + b) := by
  unfold addMonths
  have h28 := daysInMonth_ge_28 ((12 * d.year + (d.month - 1) + a) / 12)
    ((12 * d.year + (d.month - 1) + a) % 12 + 1)
  simp only
  rw [min_eq_left (le_trans hd h28)]
  have ht : 12 * ((12 * d.year + (d.month - 1) + a) / 12) +
      ((12 * d.year + (d.month - 1) + a) % 12 + 1 - 1) + b =
      12 * d.year + (d.month - 1) + (a + b) := by
    omega
  rw [ht]

theorem addMonths_day_le (d : Date) (m : ℤ) : (addMonths d m).day ≤ d.day := by
  unfold addMonths
  exact min_le_left _ _

theorem year_fraction_ok (s e : Date) (conv : String)
    (hc : pyToUpper conv = "ACT/365" ∨ pyToUpper conv = "30/360") :
    ∃ q, year_fraction s e conv = .ok q := by
  rcases hc with h | h
  · exact ⟨actual_365 s e, by rw [year_fraction, if_pos h]⟩
  · refine ⟨thirty_360 s e, ?_⟩
    rw [year_fraction]
    by_cases h1 : pyToUpper conv = "ACT/365"
    · rw [h] at h1
      exact absurd h1 (by decide)
    · rw [if_neg h1, if_pos h]

theorem schedLoop_ok (conv : String)
    (hc : pyToUpper conv = "ACT/365" ∨ pyToUpper conv = "30/360") (step : ℤ) :
    ∀ (n : ℕ) (start : Date), ∃ ps, schedLoop conv step n start = .ok ps ∧
      ps.length = n ∧
      (∀ p ∈ ps, p.periodEnd = addMonths p.start step) ∧
      List.Chain' (fun p q : CashflowPeriod => q.start = p.periodEnd) ps ∧
      (∀ p ∈ ps, year_fraction p.start p.periodEnd conv = .ok p.accrual_factor) ∧
      ps.map (fun p => (p.start, p.periodEnd)) = schedDates step n start ∧
      (0 < n → ∃ p0, ps.head? = some p0 ∧ p0.start = start) ∧
      (0 < n → start.day ≤ 28 →
        ∃ pe, ps.getLast? = some pe ∧
          pe.periodEnd = addMonths start ((n : ℤ) * step)) := by
  intro n
  induction n with
  | zero =>
      intro start
      exact ⟨[], rfl, rfl, by simp, by simp, by simp, rfl, by simp, by simp⟩
  | succ m ih =>
      intro start
      obtain ⟨acc, hacc⟩ := year_fraction_ok start (addMonths start step) conv hc
      obtain ⟨ps', hps', hlen', hends', hchain', haccs', hdates', hhead', hlast'⟩ :=
        ih (addMonths start step)
      refine ⟨⟨start, addMonths start step, acc⟩ :: ps', ?_, ?_, ?_, ?_, ?_, ?_, ?_, ?_⟩
      · rw [schedLoop, hacc, hps']
        rfl
      · simp [hlen']
      · intro p hp
        rcases List.mem_cons.mp hp with h | h
        · rw [h]
        · exact hends' p h
      · rw [List.chain'_cons']
        refine ⟨?_, hchain'⟩
        intro q hq
        cases m with
        | zero =>
            rw [List.length_eq_zero.mp hlen'] at hq
            simp at hq
        | succ k =>
            obtain ⟨p0, hp0, hp0s⟩ := hhead' (by omega)
            rw [hp0] at hq
            simp only [Option.mem_def, Option.some.injEq] at hq
            rw [← hq, hp0s]
      · intro p hp
        rcases List.mem_cons.mp hp with h | h
        · rw [h]
          exact hacc
        · exact haccs' p h
      · rw [List.map_cons, hdates']
        rfl
      · intro _
        exact ⟨⟨start, addMonths start step, acc⟩, rfl, rfl⟩
      · intro _ hd28
        cases m with
        | zero =>
            rw [List.length_eq_zero.mp hlen']
            refine ⟨⟨start, addMonths start step, acc⟩, rfl, ?_⟩
            simp only
            rw [Nat.cast_one, one_mul]
        | succ k =>
            have hd28' : (addMonths start step).day ≤ 28 :=
              le_trans (addMonths_day_le start step) hd28
            obtain ⟨pe, hpe, hpee⟩ := hlast' (by omega) hd28'
            have hne' : ps' ≠ [] := by
              intro h
              rw [h] at hlen'
              simp at hlen'
            refine ⟨pe, ?_, ?_⟩
            · obtain ⟨q0, qs, hq⟩ := List.exists_cons_of_ne_nil hne'
              rw [hq]
              rw [hq] at hpe
              rw [List.getLast?_cons_cons]
              exact hpe
            · rw [hpee, addMonths_addMonths start step _ hd28]
              congr 1
              push_cast
              ring

theorem generate_schedule_eq (start : Date) (ty : ℚ) (ppy : ℤ) (conv : String)
    (hp : 0 < ppy) (htot : qround (ty * (ppy : ℚ)) ≠ 0) :
    generate_schedule start ty ppy conv =
      schedLoop conv (qround ((12 : ℚ) / (ppy : ℚ)))
        (qround (ty * (ppy : ℚ))).toNat start := by
  simp only [generate_schedule, if_neg (not_le.mpr hp), if_neg htot]

theorem ratFloor_intCast (m : ℤ) : ((m : ℚ)).floor = m := by
  rw [Rat.floor_def']
  simp

theorem qround_intCast (m : ℤ) : qround ((m : ℚ)) = m := by
  unfold qround
  rw [ratFloor_intCast]
  rw [if_pos]
  rw [sub_self]
  norm_num

theorem accrual_sum_telescope :
    ∀ (ps : List CashflowPeriod),
      (∀ p ∈ ps, p.accrual_factor = actual_365 p.start p.periodEnd) →
      List.Chain' (fun p q : CashflowPeriod => q.start = p.periodEnd) ps →
      ∀ p0 pe, ps.head? = some p0 → ps.getLast? = some pe →
        (ps.map CashflowPeriod.accrual_factor).sum =
          actual_365 p0.start pe.periodEnd := by
  intro ps
  induction ps with
  | nil => intro _ _ p0 pe h; simp at h
  | cons a l ih =>
      intro hacc hchain p0 pe hh hl
      simp only [List.head?_cons, Option.some.injEq] at hh
      cases l with
      | nil =>
          have hle : pe = a := by
            simp only [List.getLast?_singleton, Option.some.injEq] at hl
            exact hl.symm
          rw [← hh, hle]
          simp [hacc a (List.mem_cons_self a [])]
      | cons b t =>
          rw [List.getLast?_cons_cons] at hl
          rw [List.chain'_cons] at hchain
          have hsum' := ih (fun p hp => hacc p (List.mem_cons_of_mem a hp))
            hchain.2 b pe rfl hl
          rw [List.map_cons, List.sum_cons, hsum',
            hacc a (List.mem_cons_self a (b :: t)), ← hh, ← hchain.1]
          unfold actual_365
          push_cast
          ring

theorem qround_five_four : qround ((5 : ℚ) * ((4 : ℤ) : ℚ)) = 20 := by
  rw [show ((5 : ℚ) * ((4 : ℤ) : ℚ)) = ((20 : ℤ) : ℚ) by norm_num, qround_intCast]

theorem qround_twelve_four : qround ((12 : ℚ) / ((4 : ℤ) : ℚ)) = 3 := by
  rw [show ((12 : ℚ) / ((4 : ℤ) : ℚ)) = ((3 : ℤ) : ℚ) by norm_num, qround_intCast]

theorem accruals_act365 (ps : List CashflowPeriod)
    (haccs : ∀ p ∈ ps, year_fraction p.start p.periodEnd "ACT/365" = .ok p.accrual_factor) :
    ∀ p ∈ ps, p.accrual_factor = actual_365 p.start p.periodEnd := by
  intro p hp
  have h := haccs p hp
  rw [year_fraction, if_pos (by decide : pyToUpper "ACT/365" = "ACT/365")] at h
  exact (Except.ok.inj h).symm

/-- C6: `generate_schedule` with a positive frequency and a positive rounded
period count returns exactly `round(tenor_years * frequency)` contiguous
periods starting at the schedule start, each ending `round(12/frequency)`
calendar months after its start, and (when the start day survives the
month-length clamp, i.e. `day ≤ 28`) ends the last period
`total * step` months after the start; in particular `maturity 5`,
`frequency 4` from 2025-11-17 gives 20 periods with strictly increasing end
dates whose ACT/365 accrual factors sum to `1826/365`, within `1/100`
of `5.0`.  (The original "cover `[effective, effective + maturity]`
exactly" clause is refuted by `C6_schedule_counterexample`.) -/
theorem C6_schedule_periods :
    (∀ (start : Date) (ty : ℚ) (ppy : ℤ) (conv : String),
        0 < ppy → 1 ≤ qround (ty * (ppy : ℚ)) →
        (pyToUpper conv = "ACT/365" ∨ pyToUpper conv = "30/360") →
        ∃ ps, generate_schedule start ty ppy conv = .ok ps ∧
          ps.length = (qround (ty * (ppy : ℚ))).toNat ∧
          (∃ p0, ps.head? = some p0 ∧ p0.start = start) ∧
          (∀ p ∈ ps, p.periodEnd = addMonths p.start (qround ((12 : ℚ) / (ppy : ℚ)))) ∧
          List.Chain' (fun p q : CashflowPeriod => q.start = p.periodEnd) ps ∧
          (start.day ≤ 28 → ∃ pe, ps.getLast? = some pe ∧
            pe.periodEnd = addMonths start
              (qround (ty * (ppy : ℚ)) * qround ((12 : ℚ) / (ppy : ℚ)))))
    ∧ (∃ ps, generate_schedule ⟨2025, 11, 17⟩ 5 4 "ACT/365" = .ok ps ∧
        ps.length = 20 ∧
        List.Chain' (fun p q : CashflowPeriod =>
          toRataDie p.periodEnd < toRataDie q.periodEnd) ps ∧
        (ps.map CashflowPeriod.accrual_factor).sum = 1826 / 365 ∧
        |(ps.map CashflowPeriod.accrual_factor).sum - 5| ≤ 1 / 100) := by
  constructor
  · intro start ty ppy conv hp htot hc
    have hne : qround (ty * (ppy : ℚ)) ≠ 0 := by omega
    obtain ⟨ps, hps, hlen, hends, hchain, haccs, hdates, hhead, hlast⟩ :=
      schedLoop_ok conv hc (qround ((12 : ℚ) / (ppy : ℚ)))
        (qround (ty * (ppy : ℚ))).toNat start
    have hpos : 0 < (qround (ty * (ppy : ℚ))).toNat := by omega
    refine ⟨ps, ?_, hlen, hhead hpos, hends, hchain, ?_⟩
    · rw [generate_schedule_eq start ty ppy conv hp hne, hps]
    · intro hday
      obtain ⟨pe, hpe, hpeE⟩ := hlast hpos hday
      refine ⟨pe, hpe, ?_⟩
      rw [hpeE, Int.toNat_of_nonneg (by omega)]
  · have hup : pyToUpper "ACT/365" = "ACT/365" := by decide
    obtain ⟨ps, hps, hlen, hends, hchain, haccs, hdates, hhead, hlast⟩ :=
      schedLoop_ok "ACT/365" (Or.inl hup) 3 20 ⟨2025, 11, 17⟩
    have hgen : generate_schedule ⟨2025, 11, 17⟩ 5 4 "ACT/365" = .ok ps := by
      rw [generate_schedule_eq ⟨2025, 11, 17⟩ 5 4 "ACT/365" (by decide)
        (by rw [qround_five_four]; decide)]
      rw [qround_five_four, qround_twelve_four]
      exact hps
    have hchainD : List.Chain' (fun a b : Date × Date =>
        toRataDie a.2 < toRataDie b.2)
        (ps.map fun p => (p.start, p.periodEnd)) := by
      rw [hdates]
      rw [show schedDates 3 20 ⟨2025, 11, 17⟩ =
        [(⟨2025,11,17⟩,⟨2026,2,17⟩),(⟨2026,2,17⟩,⟨2026,5,17⟩),
         (⟨2026,5,17⟩,⟨2026,8,17⟩),(⟨2026,8,17⟩,⟨2026,11,17⟩),
         (⟨2026,11,17⟩,⟨2027,2,17⟩),(⟨2027,2,17⟩,⟨2027,5,17⟩),
         (⟨2027,5,17⟩,⟨2027,8,17⟩),(⟨2027,8,17⟩,⟨2027,11,17⟩),
         (⟨2027,11,17⟩,⟨2028,2,17⟩),(⟨2028,2,17⟩,⟨2028,5,17⟩),
         (⟨2028,5,17⟩,⟨2028,8,17⟩),(⟨2028,8,17⟩,⟨2028,11,17⟩),
         (⟨2028,11,17⟩,⟨2029,2,17⟩),(⟨2029,2,17⟩,⟨2029,5,17⟩),
         (⟨2029,5,17⟩,⟨2029,8,17⟩),(⟨2029,8,17⟩,⟨2029,11,17⟩),
         (⟨2029,11,17⟩,⟨2030,2,17⟩),(⟨2030,2,17⟩,⟨2030,5,17⟩),
         (⟨2030,5,17⟩,⟨2030,8,17⟩),(⟨2030,8,17⟩,⟨2030,11,17⟩)] from by decide]
      simp only [List.chain'_cons, List.chain'_singleton, and_true]
      exact (by decide)
    have hchainE : List.Chain' (fun p q : CashflowPeriod =>
        toRataDie p.periodEnd < toRataDie q.periodEnd) ps := by
      have h := (List.chain'_map (fun p : CashflowPeriod =>
        (p.start, p.periodEnd))).mp hchainD
      exact h
    obtain ⟨p0, hp0, hp0s⟩ := hhead (by omega)
    obtain ⟨pe, hpe, hpeE⟩ := hlast (by omega) (by decide)
    have hsum : (ps.map CashflowPeriod.accrual_factor).sum =
        actual_365 p0.start pe.periodEnd :=
      accrual_sum_telescope ps (accruals_act365 ps haccs) hchain p0 pe hp0 hpe
    have hpe17 : pe.periodEnd = (⟨2030, 11, 17⟩ : Date) := by
      rw [hpeE]
      decide
    have hval : actual_365 p0.start pe.periodEnd = 1826 / 365 := by
      rw [hp0s, hpe17]
      rw [actual_365]
      norm_num [show toRataDie ⟨2030, 11, 17⟩ - toRataDie ⟨2025, 11, 17⟩ = 1826
        from by decide]
    refine ⟨ps, hgen, hlen, hchainE, ?_, ?_⟩
    · rw [hsum, hval]
    · rw [hsum, hval]
      rw [abs_le]
      constructor <;> norm_num

theorem C6_schedule_periods_witness :
    ∃ ps, generate_schedule ⟨2026, 1, 2⟩ 1 2 "act/365" = .ok ps ∧
      ps.length = 2 ∧
      List.Chain' (fun p q : CashflowPeriod => q.start = p.periodEnd) ps := by
  have hq : qround ((1 : ℚ) * ((2 : ℤ) : ℚ)) = 2 := by
    rw [show ((1 : ℚ) * ((2 : ℤ) : ℚ)) = ((2 : ℤ) : ℚ) by norm_num, qround_intCast]
  obtain ⟨ps, hps, hlen, _, _, hchain, _⟩ :=
    C6_schedule_periods.1 ⟨2026, 1, 2⟩ 1 2 "act/365" (by decide)
      (by rw [hq]; decide) (Or.inl (by decide))
  refine ⟨ps, hps, ?_, hchain⟩
  rw [hlen, hq]
  decide

/-- C6 counterexample: the schedule does not in general cover
`[effective_date, effective_date + maturity]` exactly — starting a
1-year monthly schedule on 2025-01-31, the month-end clamp drags every
later roll to the 28th, so the final period ends 2026-01-28, not the
2026-01-31 that `effective + maturity` demands. -/
theorem C6_schedule_counterexample :
    ∃ ps, generate_schedule ⟨2025, 1, 31⟩ 1 12 "ACT/365" = .ok ps ∧
      (∃ pe, ps.getLast? = some pe ∧ pe.periodEnd = ⟨2026, 1, 28⟩) ∧
      datePlusYears ⟨2025, 1, 31⟩ 1 = ⟨2026, 1, 31⟩ ∧
      (⟨2026, 1, 28⟩ : Date) ≠ ⟨2026, 1, 31⟩ := by
  have hq12 : qround ((1 : ℚ) * ((12 : ℤ) : ℚ)) = 12 := by
    rw [show ((1 : ℚ) * ((12 : ℤ) : ℚ)) = ((12 : ℤ) : ℚ) by norm_num, qround_intCast]
  have hstep : qround ((12 : ℚ) / ((12 : ℤ) : ℚ)) = 1 := by
    rw [show ((12 : ℚ) / ((12 : ℤ) : ℚ)) = ((1 : ℤ) : ℚ) by norm_num, qround_intCast]
  obtain ⟨ps, hps, hlen, hends, hchain, haccs, hdates, hhead, hlast⟩ :=
    schedLoop_ok "ACT/365" (Or.inl (by decide)) 1 12 ⟨2025, 1, 31⟩
  have hgen : generate_schedule ⟨2025, 1, 31⟩ 1 12 "ACT/365" = .ok ps := by
    rw [generate_schedule_eq ⟨2025, 1, 31⟩ 1 12 "ACT/365" (by decide)
      (by rw [hq12]; decide)]
    rw [hq12, hstep]
    exact hps
  have hlastmap : ps.getLast?.map (fun p : CashflowPeriod => (p.start, p.periodEnd)) =
      some (⟨2025, 12, 28⟩, ⟨2026, 1, 28⟩) := by
    rw [← List.getLast?_map, hdates]
    decide
  obtain ⟨pe, hpe, hpeEq⟩ := Option.map_eq_some'.mp hlastmap
  refine ⟨ps, hgen, ⟨pe, hpe, ?_⟩, ?_, by decide⟩
  · have := congrArg Prod.snd hpeEq
    exact this
  · rw [datePlusYears]
    rw [show ((1 : ℚ) * 12) = ((12 : ℤ) : ℚ) by norm_num, qround_intCast]
    decide

theorem except_bind_ok {α β : Type} (a : α) (f : α → Except PyErr β) :
    (Except.ok a >>= f : Except PyErr β) = f a := rfl

theorem mapM_loop_ok {α β : Type} (f : α → Except PyErr β) :
    ∀ l : List α, (∀ a ∈ l, ∃ b, f a = .ok b) →
      ∀ acc : List β, ∃ bs, List.mapM.loop f l acc = .ok bs := by
  intro l
  induction l with
  | nil => intro _ acc; exact ⟨acc.reverse, rfl⟩
  | cons x xs ih =>
      intro h acc
      obtain ⟨b, hb⟩ := h x (List.mem_cons_self x xs)
      obtain ⟨bs, hbs⟩ := ih (fun a ha => h a (List.mem_cons_of_mem x ha)) (b :: acc)
      refine ⟨bs, ?_⟩
      simp only [List.mapM.loop, hb, except_bind_ok]
      exact hbs

theorem mapM_loop_mem {α β : Type} (f : α → Except PyErr β) :
    ∀ (l : List α) (acc bs : List β), List.mapM.loop f l acc = .ok bs →
      ∀ b ∈ bs, b ∈ acc ∨ ∃ a ∈ l, f a = .ok b := by
  intro l
  induction l with
  | nil =>
      intro acc bs h b hb
      simp only [List.mapM.loop] at h
      have hrev : acc.reverse = bs := Except.ok.inj h
      left
      rw [← hrev] at hb
      exact List.mem_reverse.mp hb
  | cons x xs ih =>
      intro acc bs h b hb
      simp only [List.mapM.loop] at h
      cases hfx : f x with
      | error e =>
          rw [hfx, except_bind_error] at h
          exact absurd h (by simp)
      | ok bx =>
          rw [hfx] at h
          simp only [except_bind_ok] at h
          rcases ih (bx :: acc) bs h b hb with hacc | ⟨a, ha, hfa⟩
          · rcases List.mem_cons.mp hacc with hb1 | hb2
            · right
              exact ⟨x, List.mem_cons_self x xs, by rw [hfx, hb1]⟩
            · left
              exact hb2
          · right
            exact ⟨a, List.mem_cons_of_mem x ha, hfa⟩

theorem mapM_loop_length {α β : Type} (f : α → Except PyErr β) :
    ∀ (l : List α) (acc bs : List β), List.mapM.loop f l acc = .ok bs →
      bs.length = acc.length + l.length := by
  intro l
  induction l with
  | nil =>
      intro acc bs h
      have hrev : acc.reverse = bs := Except.ok.inj h
      rw [← hrev]
      simp
  | cons x xs ih =>
      intro acc bs h
      simp only [List.mapM.loop] at h
      cases hfx : f x with
      | error e =>
          rw [hfx, except_bind_error] at h
          exact absurd h (by simp)
      | ok bx =>
          rw [hfx] at h
          simp only [except_bind_ok] at h
          have := ih (bx :: acc) bs h
          simp only [List.length_cons] at this ⊢
          omega

theorem mapM_ok {α β : Type} (f : α → Except PyErr β) (l : List α)
    (h : ∀ a ∈ l, ∃ b, f a = .ok b) : ∃ bs, l.mapM f = .ok bs := by
  obtain ⟨bs, hbs⟩ := mapM_loop_ok f l h []
  exact ⟨bs, hbs⟩

theorem mapM_mem {α β : Type} (f : α → Except PyErr β) (l : List α) (bs : List β)
    (h : l.mapM f = .ok bs) : ∀ b ∈ bs, ∃ a ∈ l, f a = .ok b := by
  intro b hb
  rcases mapM_loop_mem f l [] bs h b hb with hacc | hex
  · simp at hacc
  · exact hex

theorem mapM_length {α β : Type} (f : α → Except PyErr β) (l : List α) (bs : List β)
    (h : l.mapM f = .ok bs) : bs.length = l.length := by
  have := mapM_loop_length f l [] bs h
  simpa using this

theorem year_fraction_act365 (s e : Date) :
    year_fraction s e "ACT/365" = .ok (actual_365 s e) := by
  rw [year_fraction, if_pos (by decide : pyToUpper "ACT/365" = "ACT/365")]

theorem actual_365_lt (v a b : Date) (h : toRataDie a < toRataDie b) :
    actual_365 v a < actual_365 v b := by
  unfold actual_365
  apply div_lt_div_of_pos_right _ (by norm_num)
  exact_mod_cast sub_lt_sub_right h (toRataDie v)

theorem zipWith_map_left_self {α β γ : Type} (f : β → α → γ) (g : α → β) :
    ∀ l : List α, List.zipWith f (l.map g) l = l.map fun a => f (g a) a := by
  intro l
  induction l with
  | nil => rfl
  | cons x xs ih => simp [ih]

theorem init_zipWith_ok (ts rs : List ℝ) (name : String) (dfs? : Option (List ℝ))
    (hlen : rs.length = ts.length) (hchain : ts.Chain' (· ≤ ·))
    (hne : ts ≠ []) (hpos : 0 < ts.headD 0)
    (hdlen : ∀ d ∈ dfs?, d.length = ts.length) :
    ZeroCurve.init (List.zipWith CurvePoint.mk ts rs) name dfs? =
      .ok ⟨ts, rs, name, dfs?⟩ := by
  have hmapt : (List.zipWith CurvePoint.mk ts rs).map CurvePoint.tenor = ts :=
    zipWith_mk_map_tenor ts rs (by omega)
  have hmapr : (List.zipWith CurvePoint.mk ts rs).map CurvePoint.rate = rs :=
    zipWith_mk_map_rate ts rs (by omega)
  have hptlen : (List.zipWith CurvePoint.mk ts rs).length = ts.length := by
    rw [List.length_zipWith, hlen, min_self]
  have hsorted : (List.zipWith CurvePoint.mk ts rs).Sorted ptLE := by
    have hpw : ((List.zipWith CurvePoint.mk ts rs).map CurvePoint.tenor).Pairwise
        (· ≤ ·) := by
      rw [hmapt]
      exact List.chain'_iff_pairwise.mp hchain
    have h3 := List.pairwise_map.mp hpw
    exact h3
  have hne' : List.zipWith CurvePoint.mk ts rs ≠ [] := by
    intro h
    rw [h] at hmapt
    exact hne hmapt.symm
  have hposp : 0 < ((List.zipWith CurvePoint.mk ts rs).headD default).tenor := by
    cases ts with
    | nil => exact absurd rfl hne
    | cons t0 tl =>
        cases rs with
        | nil => simp at hlen
        | cons r0 rl =>
            simp only [List.zipWith_cons_cons, List.headD_cons]
            simpa using hpos
  have h := ZeroCurve.init_ok (List.zipWith CurvePoint.mk ts rs) name dfs?
    hsorted hne' hposp (by intro d hd; rw [hdlen d hd, hptlen])
  rw [h, hmapt, hmapr]

theorem bump_curve_ok (c : ZeroCurve) (b : ℝ) (hv : c.Valid) :
    bump_curve c b = .ok ⟨c.tenors,
      List.zipWith (fun df t => -Real.log df / t)
        (c.tenors.map fun t => c.discount_factor t * Real.exp (-(b / 10000) * t))
        c.tenors,
      c.name ++ " bumped",
      some (c.tenors.map fun t => c.discount_factor t * Real.exp (-(b / 10000) * t))⟩ := by
  obtain ⟨hne, hchain, hpos, _, _⟩ := hv
  have h1 : List.zipWith (fun df t => df * Real.exp (-(b / 10000) * t))
      (c.tenors.map fun t => c.discount_factor t) c.tenors =
      c.tenors.map fun t => c.discount_factor t * Real.exp (-(b / 10000) * t) :=
    zipWith_map_left_self _ _ c.tenors
  have hlen : (List.zipWith (fun df t => -Real.log df / t)
      (c.tenors.map fun t => c.discount_factor t * Real.exp (-(b / 10000) * t))
      c.tenors).length = c.tenors.length := by
    rw [List.length_zipWith, List.length_map, min_self]
  simp only [bump_curve, h1]
  exact init_zipWith_ok c.tenors _ _ _ hlen hchain hne hpos
    (by intro d hd
        simp only [Option.mem_def, Option.some.injEq] at hd
        rw [← hd, List.length_map])

theorem apply_key_rate_shift_ok (c : ZeroCurve) (kt s : ℝ) (w : Option ℝ)
    (hv : c.Valid) :
    apply_key_rate_shift c kt s w = .ok ⟨c.tenors,
      List.zipWith (· + ·) c.rates
        (c.tenors.map fun t => tentShift kt s (w.getD (defaultKeyRateWidth kt)) t),
      c.name ++ " KR",
      some (List.zipWith (fun r t => Real.exp (-r * t))
        (List.zipWith (· + ·) c.rates
          (c.tenors.map fun t => tentShift kt s (w.getD (defaultKeyRateWidth kt)) t))
        c.tenors)⟩ := by
  obtain ⟨hne, hchain, hpos, hrlen, _⟩ := hv
  have hlen : (List.zipWith (· + ·) c.rates
      (c.tenors.map fun t => tentShift kt s (w.getD (defaultKeyRateWidth kt)) t)).length =
      c.tenors.length := by
    rw [List.length_zipWith, List.length_map, hrlen, min_self]
  have hdlen : (List.zipWith (fun r t => Real.exp (-r * t))
      (List.zipWith (· + ·) c.rates
        (c.tenors.map fun t => tentShift kt s (w.getD (defaultKeyRateWidth kt)) t))
      c.tenors).length = c.tenors.length := by
    rw [List.length_zipWith, hlen, min_self]
  simp only [apply_key_rate_shift]
  exact init_zipWith_ok c.tenors _ _ _ hlen hchain hne hpos
    (by intro d hd
        simp only [Option.mem_def, Option.some.injEq] at hd
        rw [← hd, hdlen])

theorem except_isOk_exists {β : Type} {e : Except PyErr β} (h : e.isOk = true) :
    ∃ b, e = .ok b := by
  cases e with
  | error e1 => exact Bool.noConfusion h
  | ok b => exact ⟨b, rfl⟩

theorem build_fixed_ok (dc : ZeroCurve) (swap : SwapDefinition)
    (psF : List CashflowPeriod)
    (hF : generate_schedule swap.effective_date swap.maturity_years
      swap.fixed_leg_frequency swap.fixed_leg_daycount = .ok psF) :
    ∃ rows, build_fixed_cashflows dc swap = .ok rows := by
  simp only [build_fixed_cashflows, hF, except_bind_ok]
  exact mapM_ok _ psF (fun p _ => ⟨_, by rw [year_fraction_act365]; rfl⟩)

theorem build_floating_ok (dc fc : ZeroCurve) (swap : SwapDefinition)
    (psL : List CashflowPeriod)
    (hL : generate_schedule swap.effective_date swap.maturity_years
      swap.floating_leg_frequency swap.floating_leg_daycount = .ok psL)
    (hmono : ∀ p ∈ psL, actual_365 swap.valuation_date p.start <
      actual_365 swap.valuation_date p.periodEnd) :
    ∃ rows, build_floating_cashflows dc fc swap = .ok rows := by
  simp only [build_floating_cashflows, hL, except_bind_ok]
  refine mapM_ok _ psL (fun p hp => ?_)
  have hlt : ((actual_365 swap.valuation_date p.start : ℚ) : ℝ) <
      ((actual_365 swap.valuation_date p.periodEnd : ℚ) : ℝ) := by
    exact_mod_cast hmono p hp
  apply except_isOk_exists
  simp only [year_fraction_act365, except_bind_ok]
  rw [ZeroCurve.forward_rate, if_neg (not_le.mpr hlt)]
  rfl

theorem price_eq_ok (dc fc : ZeroCurve) (swap : SwapDefinition)
    (fixedRows floatRows : List CashflowRow)
    (hFr : build_fixed_cashflows dc swap = .ok fixedRows)
    (hLr : build_floating_cashflows dc fc swap = .ok floatRows) :
    price dc fc swap = .ok
      ⟨List.insertionSort rowLE (fixedRows ++ floatRows),
       (((fixedRows ++ floatRows).filter fun r => r.leg = "fixed").map
         CashflowRow.present_value).sum,
       (((fixedRows ++ floatRows).filter fun r => r.leg = "floating").map
         CashflowRow.present_value).sum,
       (((fixedRows ++ floatRows).filter fun r => r.leg = "fixed").map
         CashflowRow.present_value).sum +
       (((fixedRows ++ floatRows).filter fun r => r.leg = "floating").map
         CashflowRow.present_value).sum⟩ := by
  simp only [price, hFr, hLr, except_bind_ok]
  rfl

theorem price_ok (dc fc : ZeroCurve) (swap : SwapDefinition)
    (psF psL : List CashflowPeriod)
    (hF : generate_schedule swap.effective_date swap.maturity_years
      swap.fixed_leg_frequency swap.fixed_leg_daycount = .ok psF)
    (hL : generate_schedule swap.effective_date swap.maturity_years
      swap.floating_leg_frequency swap.floating_leg_daycount = .ok psL)
    (hmono : ∀ p ∈ psL, actual_365 swap.valuation_date p.start <
      actual_365 swap.valuation_date p.periodEnd) :
    ∃ res fixedRows floatRows,
      price dc fc swap = .ok res ∧
      build_fixed_cashflows dc swap = .ok fixedRows ∧
      build_floating_cashflows dc fc swap = .ok floatRows ∧
      res.cashflows = List.insertionSort rowLE (fixedRows ++ floatRows) := by
  obtain ⟨fixedRows, hFr⟩ := build_fixed_ok dc swap psF hF
  obtain ⟨floatRows, hLr⟩ := build_floating_ok dc fc swap psL hL hmono
  exact ⟨_, fixedRows, floatRows, price_eq_ok dc fc swap fixedRows floatRows hFr hLr,
    hFr, hLr, rfl⟩

/-- C3: whenever `price_with_risk` returns a result, that result was produced
by pricing the swap on the input curves, bumping both curves in parallel with
`bump_curve`, and repricing, with `PV01 = DV01 = bumpedNPV - baseNPV` exactly
(both fields carry the same number); and on every valid curve `bump_curve`
multiplies each node's discount factor by `exp(-(bump_bp/10000) * t)` and
stores the implied rates `-ln(newDF)/t`. -/
theorem C3_price_with_risk (swap : SwapDefinition) (dc fc : ZeroCurve) (b : ℝ)
    (res : RiskResult) (h : price_with_risk swap dc fc b = .ok res) :
    res.pv01 = res.dv01 ∧
    (∃ base bd bf bumped,
      price dc fc swap = .ok base ∧
      bump_curve dc b = .ok bd ∧
      bump_curve fc b = .ok bf ∧
      price bd bf swap = .ok bumped ∧
      res.pricing = base ∧ res.npv = base.npv ∧
      res.cashflows = base.cashflows ∧
      res.pv01 = bumped.npv - base.npv) ∧
    (∀ c : ZeroCurve, c.Valid →
      bump_curve c b = .ok ⟨c.tenors,
        List.zipWith (fun df t => -Real.log df / t)
          (c.tenors.map fun t => c.discount_factor t * Real.exp (-(b / 10000) * t))
          c.tenors,
        c.name ++ " bumped",
        some (c.tenors.map fun t =>
          c.discount_factor t * Real.exp (-(b / 10000) * t))⟩) := by
  rw [price_with_risk] at h
  cases hbase : price dc fc swap with
  | error e =>
      rw [hbase, except_bind_error] at h
      exact absurd h (by simp)
  | ok base =>
      rw [hbase] at h
      simp only [except_bind_ok] at h
      cases hbd : bump_curve dc b with
      | error e =>
          rw [hbd, except_bind_error] at h
          exact absurd h (by simp)
      | ok bd =>
          rw [hbd] at h
          simp only [except_bind_ok] at h
          cases hbf : bump_curve fc b with
          | error e =>
              rw [hbf, except_bind_error] at h
              exact absurd h (by simp)
          | ok bf =>
              rw [hbf] at h
              simp only [except_bind_ok] at h
              cases hbp : price bd bf swap with
              | error e =>
                  rw [hbp, except_bind_error] at h
                  exact absurd h (by simp)
              | ok bumped =>
                  rw [hbp] at h
                  simp only [except_bind_ok] at h
                  have hres := (Except.ok.inj h).symm
                  subst hres
                  exact ⟨rfl,
                    ⟨base, bd, bf, bumped, rfl, rfl, rfl, hbp, rfl, rfl, rfl, rfl⟩,
                    fun c hv => bump_curve_ok c b hv⟩

theorem concrete_schedules :
    ∃ psF psL : List CashflowPeriod,
      generate_schedule ⟨2025, 11, 17⟩ (1 / 2 : ℚ) 2 "30/360" = .ok psF ∧
      generate_schedule ⟨2025, 11, 17⟩ (1 / 2 : ℚ) 4 "ACT/365" = .ok psL ∧
      psF.map (fun p => (p.start, p.periodEnd)) = schedDates 6 1 ⟨2025, 11, 17⟩ ∧
      psL.map (fun p => (p.start, p.periodEnd)) = schedDates 3 2 ⟨2025, 11, 17⟩ ∧
      (∀ p ∈ psF, year_fraction p.start p.periodEnd "30/360" = .ok p.accrual_factor) ∧
      (∀ p ∈ psL, actual_365 ⟨2025, 11, 17⟩ p.start <
        actual_365 ⟨2025, 11, 17⟩ p.periodEnd) := by
  have hqF : qround ((1 / 2 : ℚ) * ((2 : ℤ) : ℚ)) = 1 := by
    rw [show ((1 / 2 : ℚ) * ((2 : ℤ) : ℚ)) = ((1 : ℤ) : ℚ) by norm_num, qround_intCast]
  have hsF : qround ((12 : ℚ) / ((2 : ℤ) : ℚ)) = 6 := by
    rw [show ((12 : ℚ) / ((2 : ℤ) : ℚ)) = ((6 : ℤ) : ℚ) by norm_num, qround_intCast]
  have hqL : qround ((1 / 2 : ℚ) * ((4 : ℤ) : ℚ)) = 2 := by
    rw [show ((1 / 2 : ℚ) * ((4 : ℤ) : ℚ)) = ((2 : ℤ) : ℚ) by norm_num, qround_intCast]
  have hsL : qround ((12 : ℚ) / ((4 : ℤ) : ℚ)) = 3 := by
    rw [show ((12 : ℚ) / ((4 : ℤ) : ℚ)) = ((3 : ℤ) : ℚ) by norm_num, qround_intCast]
  obtain ⟨psF, hpsF, _, _, _, haccF, hdF, _, _⟩ :=
    schedLoop_ok "30/360" (Or.inr (by decide)) 6 1 ⟨2025, 11, 17⟩
  obtain ⟨psL, hpsL, _, _, _, _, hdL, _, _⟩ :=
    schedLoop_ok "ACT/365" (Or.inl (by decide)) 3 2 ⟨2025, 11, 17⟩
  have hgF : generate_schedule ⟨2025, 11, 17⟩ (1 / 2 : ℚ) 2 "30/360" = .ok psF := by
    rw [generate_schedule_eq ⟨2025, 11, 17⟩ (1 / 2) 2 "30/360" (by decide)
      (by rw [hqF]; decide)]
    rw [hqF, hsF]
    exact hpsF
  have hgL : generate_schedule ⟨2025, 11, 17⟩ (1 / 2 : ℚ) 4 "ACT/365" = .ok psL := by
    rw [generate_schedule_eq ⟨2025, 11, 17⟩ (1 / 2) 4 "ACT/365" (by decide)
      (by rw [hqL]; decide)]
    rw [hqL, hsL]
    exact hpsL
  refine ⟨psF, psL, hgF, hgL, hdF, hdL, haccF, ?_⟩
  intro p hp
  have hmem : (p.start, p.periodEnd) ∈ psL.map (fun q => (q.start, q.periodEnd)) :=
    List.mem_map_of_mem _ hp
  rw [hdL] at hmem
  have hsd : schedDates 3 2 ⟨2025, 11, 17⟩ =
      [(⟨2025, 11, 17⟩, ⟨2026, 2, 17⟩), (⟨2026, 2, 17⟩, ⟨2026, 5, 17⟩)] := by decide
  rw [hsd] at hmem
  rcases List.mem_cons.mp hmem with h1 | h2
  · have hs : p.start = ⟨2025, 11, 17⟩ := congrArg Prod.fst h1
    have he : p.periodEnd = ⟨2026, 2, 17⟩ := congrArg Prod.snd h1
    rw [hs, he]
    exact actual_365_lt _ _ _ (by decide)
  · rcases List.mem_singleton.mp h2 with h1
    have hs : p.start = ⟨2026, 2, 17⟩ := congrArg Prod.fst h1
    have he : p.periodEnd = ⟨2026, 5, 17⟩ := congrArg Prod.snd h1
    rw [hs, he]
    exact actual_365_lt _ _ _ (by decide)

theorem C3_price_with_risk_witness :
    ∃ res, price_with_risk
      ⟨⟨2025, 11, 17⟩, ⟨2025, 11, 17⟩, 1 / 2, 1000000, -1 / 100, "fixed", 2, 4,
        "30/360", "ACT/365", 0⟩
      (ZeroCurve.mk [1, 2] [1 / 25, 1 / 25] "w" none)
      (ZeroCurve.mk [1, 2] [1 / 25, 1 / 25] "w" none) 1 = .ok res ∧
      res.pv01 = res.dv01 := by
  have hv : (ZeroCurve.mk [1, 2] [1 / 25, 1 / 25] "w" none).Valid := by
    refine ⟨by simp, ?_, by norm_num, rfl, by simp⟩
    norm_num [List.chain'_cons, List.chain'_singleton]
  obtain ⟨psF, psL, hgF, hgL, _, _, _, hmono⟩ := concrete_schedules
  obtain ⟨base, F0, L0, hbase, _, _, _⟩ := price_ok
    (ZeroCurve.mk [1, 2] [1 / 25, 1 / 25] "w" none)
    (ZeroCurve.mk [1, 2] [1 / 25, 1 / 25] "w" none)
    ⟨⟨2025, 11, 17⟩, ⟨2025, 11, 17⟩, 1 / 2, 1000000, -1 / 100, "fixed", 2, 4,
      "30/360", "ACT/365", 0⟩ psF psL hgF hgL hmono
  obtain ⟨bd, hbd⟩ : ∃ bd, bump_curve (ZeroCurve.mk [1, 2] [1 / 25, 1 / 25] "w" none) 1 =
      .ok bd := ⟨_, bump_curve_ok (ZeroCurve.mk [1, 2] [1 / 25, 1 / 25] "w" none) 1 hv⟩
  obtain ⟨bumped, F1, L1, hbump, _, _, _⟩ := price_ok bd bd
    ⟨⟨2025, 11, 17⟩, ⟨2025, 11, 17⟩, 1 / 2, 1000000, -1 / 100, "fixed", 2, 4,
      "30/360", "ACT/365", 0⟩ psF psL hgF hgL hmono
  have hrisk : price_with_risk
      ⟨⟨2025, 11, 17⟩, ⟨2025, 11, 17⟩, 1 / 2, 1000000, -1 / 100, "fixed", 2, 4,
        "30/360", "ACT/365", 0⟩
      (ZeroCurve.mk [1, 2] [1 / 25, 1 / 25] "w" none)
      (ZeroCurve.mk [1, 2] [1 / 25, 1 / 25] "w" none) 1 =
      .ok ⟨base, base.npv, bumped.npv - base.npv, bumped.npv - base.npv,
        base.cashflows⟩ := by
    simp only [price_with_risk, hbase, hbd, hbump, except_bind_ok]
  exact ⟨_, hrisk, (C3_price_with_risk _ _ _ 1 _ hrisk).1⟩

theorem keyRateLoop_inv (swap : SwapDefinition) (dc fc : ZeroCurve) (b npv : ℝ) :
    ∀ (l : List ℝ) (out : List (ℝ × ℝ)),
      keyRateLoop swap dc fc b npv l = .ok out →
      List.Forall₂ (fun (kt : ℝ) (pair : ℝ × ℝ) => pair.1 = kt ∧
        ∃ sd sf sp, apply_key_rate_shift dc kt b none = .ok sd ∧
          apply_key_rate_shift fc kt b none = .ok sf ∧
          price sd sf swap = .ok sp ∧ pair.2 = sp.npv - npv) l out := by
  intro l
  induction l with
  | nil =>
      intro out h
      have : ([] : List (ℝ × ℝ)) = out := Except.ok.inj h
      rw [← this]
      exact List.Forall₂.nil
  | cons kt rest ih =>
      intro out h
      rw [keyRateLoop] at h
      cases hsd : apply_key_rate_shift dc kt b none with
      | error e =>
          rw [hsd, except_bind_error] at h
          exact absurd h (by simp)
      | ok sd =>
          rw [hsd] at h
          simp only [except_bind_ok] at h
          cases hsf : apply_key_rate_shift fc kt b none with
          | error e =>
              rw [hsf, except_bind_error] at h
              exact absurd h (by simp)
          | ok sf =>
              rw [hsf] at h
              simp only [except_bind_ok] at h
              cases hsp : price sd sf swap with
              | error e =>
                  rw [hsp, except_bind_error] at h
                  exact absurd h (by simp)
              | ok sp =>
                  rw [hsp] at h
                  simp only [except_bind_ok] at h
                  cases htail : keyRateLoop swap dc fc b npv rest with
                  | error e =>
                      rw [htail, except_bind_error] at h
                      exact absurd h (by simp)
                  | ok tail =>
                      rw [htail] at h
                      simp only [except_bind_ok] at h
                      have hout := (Except.ok.inj h).symm
                      subst hout
                      exact List.Forall₂.cons
                        ⟨rfl, sd, sf, sp, hsd, hsf, hsp, rfl⟩ (ih tail htail)

/-- C7: `apply_key_rate_shift` adds the triangular tent shift
`shift_bp/10000 * (1 - |t - key|/width)` inside the tent and `0` outside to
every node rate of a valid curve and recomputes the cached discount factors
as `exp(-rate * t)`, with the default width `1` below `1y`, `2` between `1y`
and `5y`, and `3` beyond; and whenever `calculate_key_rate_dv01` returns a
table, it was produced by pricing the swap once on the base curves and, for
each key tenor in order, tent-shifting both curves, repricing, and recording
`shiftedNPV - baseNPV`. -/
theorem C7_key_rate_dv01 (swap : SwapDefinition) (dc fc : ZeroCurve)
    (keyTenors : List ℝ) (b : ℝ) (out : List (ℝ × ℝ))
    (h : calculate_key_rate_dv01 swap dc fc keyTenors b = .ok out) :
    (∀ (c : ZeroCurve) (kt s : ℝ) (w : Option ℝ), c.Valid →
      apply_key_rate_shift c kt s w = .ok ⟨c.tenors,
        List.zipWith (· + ·) c.rates (c.tenors.map fun t =>
          tentShift kt s (w.getD (defaultKeyRateWidth kt)) t),
        c.name ++ " KR",
        some (List.zipWith (fun r t => Real.exp (-r * t))
          (List.zipWith (· + ·) c.rates (c.tenors.map fun t =>
            tentShift kt s (w.getD (defaultKeyRateWidth kt)) t)) c.tenors)⟩) ∧
    (∀ kt s wdt t : ℝ, tentShift kt s wdt t =
      if |t - kt| ≤ wdt then s / 10000 * (1 - |t - kt| / wdt) else 0) ∧
    (∀ kt : ℝ, defaultKeyRateWidth kt =
      if kt < 1 then 1 else if kt ≤ 5 then 2 else 3) ∧
    ∃ base, price dc fc swap = .ok base ∧
      List.Forall₂ (fun (kt : ℝ) (pair : ℝ × ℝ) => pair.1 = kt ∧
        ∃ sd sf sp, apply_key_rate_shift dc kt b none = .ok sd ∧
          apply_key_rate_shift fc kt b none = .ok sf ∧
          price sd sf swap = .ok sp ∧ pair.2 = sp.npv - base.npv) keyTenors out := by
  refine ⟨fun c kt s w hv => apply_key_rate_shift_ok c kt s w hv,
    fun _ _ _ _ => rfl, fun _ => rfl, ?_⟩
  rw [calculate_key_rate_dv01] at h
  cases hbase : price dc fc swap with
  | error e =>
      rw [hbase, except_bind_error] at h
      exact absurd h (by simp)
  | ok base =>
      rw [hbase] at h
      simp only [except_bind_ok] at h
      exact ⟨base, rfl, keyRateLoop_inv swap dc fc b base.npv keyTenors out h⟩

theorem C7_key_rate_dv01_witness :
    ∃ (out : List (ℝ × ℝ)) (base : PricingResult),
      calculate_key_rate_dv01
        ⟨⟨2025, 11, 17⟩, ⟨2025, 11, 17⟩, 1 / 2, 1000000, -1 / 100, "fixed", 2, 4,
          "30/360", "ACT/365", 0⟩
        (ZeroCurve.mk [1, 2] [1 / 25, 1 / 25] "w" none)
        (ZeroCurve.mk [1, 2] [1 / 25, 1 / 25] "w" none) [1] 1 = .ok out ∧
      price (ZeroCurve.mk [1, 2] [1 / 25, 1 / 25] "w" none)
        (ZeroCurve.mk [1, 2] [1 / 25, 1 / 25] "w" none)
        ⟨⟨2025, 11, 17⟩, ⟨2025, 11, 17⟩, 1 / 2, 1000000, -1 / 100, "fixed", 2, 4,
          "30/360", "ACT/365", 0⟩ = .ok base ∧
      out.length = 1 := by
  have hv : (ZeroCurve.mk [1, 2] [1 / 25, 1 / 25] "w" none).Valid := by
    refine ⟨by simp, ?_, by norm_num, rfl, by simp⟩
    norm_num [List.chain'_cons, List.chain'_singleton]
  obtain ⟨psF, psL, hgF, hgL, _, _, _, hmono⟩ := concrete_schedules
  obtain ⟨base, F0, L0, hbase, _, _, _⟩ := price_ok
    (ZeroCurve.mk [1, 2] [1 / 25, 1 / 25] "w" none)
    (ZeroCurve.mk [1, 2] [1 / 25, 1 / 25] "w" none)
    ⟨⟨2025, 11, 17⟩, ⟨2025, 11, 17⟩, 1 / 2, 1000000, -1 / 100, "fixed", 2, 4,
      "30/360", "ACT/365", 0⟩ psF psL hgF hgL hmono
  obtain ⟨sd, hsd⟩ : ∃ sd, apply_key_rate_shift
      (ZeroCurve.mk [1, 2] [1 / 25, 1 / 25] "w" none) 1 1 none = .ok sd :=
    ⟨_, apply_key_rate_shift_ok (ZeroCurve.mk [1, 2] [1 / 25, 1 / 25] "w" none)
      1 1 none hv⟩
  obtain ⟨sp, F1, L1, hsp, _, _, _⟩ := price_ok sd sd
    ⟨⟨2025, 11, 17⟩, ⟨2025, 11, 17⟩, 1 / 2, 1000000, -1 / 100, "fixed", 2, 4,
      "30/360", "ACT/365", 0⟩ psF psL hgF hgL hmono
  have hcalc : calculate_key_rate_dv01
      ⟨⟨2025, 11, 17⟩, ⟨2025, 11, 17⟩, 1 / 2, 1000000, -1 / 100, "fixed", 2, 4,
        "30/360", "ACT/365", 0⟩
      (ZeroCurve.mk [1, 2] [1 / 25, 1 / 25] "w" none)
      (ZeroCurve.mk [1, 2] [1 / 25, 1 / 25] "w" none) [1] 1 =
      .ok [(1, sp.npv - base.npv)] := by
    simp only [calculate_key_rate_dv01, keyRateLoop, hbase, hsd, hsp, except_bind_ok]
  obtain ⟨base', hbase', hfa⟩ := (C7_key_rate_dv01 _ _ _ _ _ _ hcalc).2.2.2
  refine ⟨_, base', hcalc, hbase', ?_⟩
  exact hfa.length_eq.symm

/-- C9 (amended): every cashflow row that `SwapPricer.price` returns carries
`cashflow = legDirection(payer, leg) * notional * coupon_rate * accrual` and
`present_value = cashflow * discount_factor`, where `legDirection` is `-1`
for the leg the holder pays and `+1` for the leg it receives, and the fixed
and floating directions are always opposite; the sign itself is that of
`legDirection * notional * coupon_rate * accrual`, so a negative fixed rate
(or negative forward plus spread) flips the claimed per-leg signs — see
`C9_sign_counterexample`. -/
theorem C9_cashflow_sign_invariant (swap : SwapDefinition) (dc fc : ZeroCurve)
    (res : PricingResult) (h : price dc fc swap = .ok res) :
    (∀ payer : String, legDirection payer "fixed" = -legDirection payer "floating") ∧
    ∀ row ∈ res.cashflows,
      (row.leg = "fixed" ∨ row.leg = "floating") ∧
      row.cashflow = legDirection swap.payer row.leg *
        (swap.notional * row.coupon_rate * (row.accrual_factor : ℝ)) ∧
      row.present_value = row.cashflow * row.df := by
  constructor
  · intro payer
    by_cases hp : payer = "fixed"
    · simp [legDirection, hp]
    · simp [legDirection, hp]
  · rw [price] at h
    cases hFb : build_fixed_cashflows dc swap with
    | error e =>
        rw [hFb, except_bind_error] at h
        exact absurd h (by simp)
    | ok F =>
        rw [hFb] at h
        simp only [except_bind_ok] at h
        cases hLb : build_floating_cashflows dc fc swap with
        | error e =>
            rw [hLb, except_bind_error] at h
            exact absurd h (by simp)
        | ok L =>
            rw [hLb] at h
            simp only [except_bind_ok] at h
            have hres := (Except.ok.inj h).symm
            subst hres
            rw [build_fixed_cashflows] at hFb
            cases hsF : generate_schedule swap.effective_date swap.maturity_years
                swap.fixed_leg_frequency swap.fixed_leg_daycount with
            | error e =>
                rw [hsF, except_bind_error] at hFb
                exact absurd hFb (by simp)
            | ok psF =>
                rw [hsF] at hFb
                simp only [except_bind_ok] at hFb
                rw [build_floating_cashflows] at hLb
                cases hsL : generate_schedule swap.effective_date swap.maturity_years
                    swap.floating_leg_frequency swap.floating_leg_daycount with
                | error e =>
                    rw [hsL, except_bind_error] at hLb
                    exact absurd hLb (by simp)
                | ok psL =>
                    rw [hsL] at hLb
                    simp only [except_bind_ok] at hLb
                    intro row hrow
                    have hmem := (List.mem_insertionSort rowLE).mp hrow
                    rcases List.mem_append.mp hmem with hmf | hml
                    · obtain ⟨p, hp, hbody⟩ := mapM_mem _ _ _ hFb row hmf
                      rw [year_fraction_act365] at hbody
                      simp only [except_bind_ok] at hbody
                      have hrow' := (Except.ok.inj hbody).symm
                      subst hrow'
                      refine ⟨Or.inl rfl, ?_, rfl⟩
                      simp [legDirection]
                    · obtain ⟨p, hp, hbody⟩ := mapM_mem _ _ _ hLb row hml
                      simp only [year_fraction_act365, except_bind_ok] at hbody
                      cases hfw : ZeroCurve.forward_rate fc
                          ((actual_365 swap.valuation_date p.start : ℚ) : ℝ)
                          ((actual_365 swap.valuation_date p.periodEnd : ℚ) : ℝ) with
                      | error e =>
                          rw [hfw, except_bind_error] at hbody
                          exact absurd hbody (by simp)
                      | ok fwd =>
                          rw [hfw] at hbody
                          simp only [except_bind_ok] at hbody
                          have hrow' := (Except.ok.inj hbody).symm
                          subst hrow'
                          refine ⟨Or.inr rfl, ?_, rfl⟩
                          simp [legDirection]

theorem mapM_loop_acc_sub {α β : Type} (f : α → Except PyErr β) :
    ∀ (l : List α) (acc bs : List β), List.mapM.loop f l acc = .ok bs →
      ∀ c ∈ acc, c ∈ bs := by
  intro l
  induction l with
  | nil =>
      intro acc bs h c hc
      have hrev : acc.reverse = bs := Except.ok.inj h
      rw [← hrev]
      exact List.mem_reverse.mpr hc
  | cons x xs ih =>
      intro acc bs h c hc
      simp only [List.mapM.loop] at h
      cases hfx : f x with
      | error e =>
          rw [hfx, except_bind_error] at h
          exact absurd h (by simp)
      | ok bx =>
          rw [hfx] at h
          simp only [except_bind_ok] at h
          exact ih (bx :: acc) bs h c (List.mem_cons_of_mem bx hc)

theorem mapM_mem_fwd {α β : Type} (f : α → Except PyErr β) :
    ∀ (l : List α) (bs : List β), l.mapM f = .ok bs →
      ∀ a ∈ l, ∀ b, f a = .ok b → b ∈ bs := by
  have hloop : ∀ (l : List α) (acc bs : List β), List.mapM.loop f l acc = .ok bs →
      ∀ a ∈ l, ∀ b, f a = .ok b → b ∈ bs := by
    intro l
    induction l with
    | nil =>
        intro acc bs _ a ha
        exact absurd ha (List.not_mem_nil a)
    | cons x xs ih =>
        intro acc bs h a ha b hab
        simp only [List.mapM.loop] at h
        cases hfx : f x with
        | error e =>
            rw [hfx, except_bind_error] at h
            exact absurd h (by simp)
        | ok bx =>
            rw [hfx] at h
            simp only [except_bind_ok] at h
            rcases List.mem_cons.mp ha with hax | hax
            · have hb : bx = b := by
                rw [hax] at hab
                exact Except.ok.inj (hfx.symm.trans hab)
              rw [← hb]
              exact mapM_loop_acc_sub f xs (bx :: acc) bs h bx
                (List.mem_cons_self bx acc)
            · exact ih (bx :: acc) bs h a hax b hab
  intro l bs h
  exact hloop l [] bs h

theorem fixed_row_exists (dc fc : ZeroCurve) (swap : SwapDefinition)
    (res : PricingResult) (psF : List CashflowPeriod)
    (h : price dc fc swap = .ok res)
    (hsF : generate_schedule swap.effective_date swap.maturity_years
      swap.fixed_leg_frequency swap.fixed_leg_daycount = .ok psF)
    (p : CashflowPeriod) (hp : p ∈ psF) :
    ∃ row ∈ res.cashflows, row.leg = "fixed" ∧
      row.coupon_rate = swap.fixed_rate ∧
      row.accrual_factor = p.accrual_factor ∧
      row.cashflow = (if swap.payer = "fixed" then (-1 : ℝ) else 1) *
        (swap.notional * swap.fixed_rate * (p.accrual_factor : ℝ)) := by
  rw [price] at h
  cases hFb : build_fixed_cashflows dc swap with
  | error e =>
      rw [hFb, except_bind_error] at h
      exact absurd h (by simp)
  | ok F =>
      rw [hFb] at h
      simp only [except_bind_ok] at h
      cases hLb : build_floating_cashflows dc fc swap with
      | error e =>
          rw [hLb, except_bind_error] at h
          exact absurd h (by simp)
      | ok L =>
          rw [hLb] at h
          simp only [except_bind_ok] at h
          have hres := (Except.ok.inj h).symm
          subst hres
          rw [build_fixed_cashflows, hsF] at hFb
          simp only [except_bind_ok] at hFb
          have hbody : (fun period : CashflowPeriod =>
              (year_fraction swap.valuation_date period.periodEnd "ACT/365" >>=
                fun tPay => pure
                  { period_start := period.start
                    period_end := period.periodEnd
                    accrual_factor := period.accrual_factor
                    coupon_rate := swap.fixed_rate
                    fwd_rate := none
                    cashflow := (if swap.payer = "fixed" then (-1 : ℝ) else 1) *
                      (swap.notional * swap.fixed_rate * (period.accrual_factor : ℝ))
                    df := dc.discount_factor ((tPay : ℚ) : ℝ)
                    present_value := (if swap.payer = "fixed" then (-1 : ℝ) else 1) *
                      (swap.notional * swap.fixed_rate *
                        (period.accrual_factor : ℝ)) *
                      dc.discount_factor ((tPay : ℚ) : ℝ)
                    time_to_payment := tPay
                    leg := "fixed"
                    projection_rate := swap.fixed_rate } : Except PyErr CashflowRow)) p =
              .ok
                { period_start := p.start
                  period_end := p.periodEnd
                  accrual_factor := p.accrual_factor
                  coupon_rate := swap.fixed_rate
                  fwd_rate := none
                  cashflow := (if swap.payer = "fixed" then (-1 : ℝ) else 1) *
                    (swap.notional * swap.fixed_rate * (p.accrual_factor : ℝ))
                  df := dc.discount_factor
                    ((actual_365 swap.valuation_date p.periodEnd : ℚ) : ℝ)
                  present_value := (if swap.payer = "fixed" then (-1 : ℝ) else 1) *
                    (swap.notional * swap.fixed_rate * (p.accrual_factor : ℝ)) *
                    dc.discount_factor
                      ((actual_365 swap.valuation_date p.periodEnd : ℚ) : ℝ)
                  time_to_payment := actual_365 swap.valuation_date p.periodEnd
                  leg := "fixed"
                  projection_rate := swap.fixed_rate } := by
            simp only [year_fraction_act365]
            rfl
          have hmem := mapM_mem_fwd _ psF F hFb p hp _ hbody
          exact ⟨_, (List.mem_insertionSort rowLE).mpr (List.mem_append_left L hmem),
            rfl, rfl, rfl, rfl⟩

/-- C9 counterexample: a fixed-payer swap with a negative fixed rate produces
a POSITIVE fixed-leg cashflow, contradicting the claim that the leg the
holder pays always carries sign `-1`: the sign is `-sign(notional *
coupon_rate * accrual)`, not `-1`. -/
theorem C9_sign_counterexample :
    ∃ res : PricingResult,
      price (ZeroCurve.mk [1, 2] [1 / 25, 1 / 25] "w" none)
        (ZeroCurve.mk [1, 2] [1 / 25, 1 / 25] "w" none)
        ⟨⟨2025, 11, 17⟩, ⟨2025, 11, 17⟩, 1 / 2, 1000000, -1 / 100, "fixed", 2, 4,
          "30/360", "ACT/365", 0⟩ = .ok res ∧
      ∃ row ∈ res.cashflows, row.leg = "fixed" ∧ 0 < row.cashflow := by
  obtain ⟨psF, psL, hgF, hgL, hdF, hdL, haccF, hmono⟩ := concrete_schedules
  obtain ⟨res, F, L, hprice, _, _, _⟩ := price_ok
    (ZeroCurve.mk [1, 2] [1 / 25, 1 / 25] "w" none)
    (ZeroCurve.mk [1, 2] [1 / 25, 1 / 25] "w" none)
    ⟨⟨2025, 11, 17⟩, ⟨2025, 11, 17⟩, 1 / 2, 1000000, -1 / 100, "fixed", 2, 4,
      "30/360", "ACT/365", 0⟩ psF psL hgF hgL hmono
  have hdF' : psF.map (fun q => (q.start, q.periodEnd)) =
      [(⟨2025, 11, 17⟩, ⟨2026, 5, 17⟩)] := by
    rw [hdF]
    decide
  cases psF with
  | nil => simp at hdF'
  | cons p rest =>
      cases rest with
      | cons q r2 =>
          have hlen := congrArg List.length hdF'
          simp at hlen
      | nil =>
          have hpair : (p.start, p.periodEnd) = (⟨2025, 11, 17⟩, ⟨2026, 5, 17⟩) := by
            simpa using hdF'
          have hs : p.start = ⟨2025, 11, 17⟩ := congrArg Prod.fst hpair
          have he : p.periodEnd = ⟨2026, 5, 17⟩ := congrArg Prod.snd hpair
          have hacc := haccF p (List.mem_cons_self p [])
          rw [hs, he, year_fraction, if_neg (by decide), if_pos (by decide)] at hacc
          have haccv : p.accrual_factor = 1 / 2 := by
            rw [← Except.ok.inj hacc]
            norm_num [thirty_360]
          obtain ⟨row, hrowmem, hleg, _, _, hcfl⟩ :=
            fixed_row_exists
              (ZeroCurve.mk [1, 2] [1 / 25, 1 / 25] "w" none)
              (ZeroCurve.mk [1, 2] [1 / 25, 1 / 25] "w" none)
              ⟨⟨2025, 11, 17⟩, ⟨2025, 11, 17⟩, 1 / 2, 1000000, -1 / 100, "fixed",
                2, 4, "30/360", "ACT/365", 0⟩
              res (p :: []) hprice hgF p (List.mem_cons_self p [])
          refine ⟨res, hprice, row, hrowmem, hleg, ?_⟩
          rw [hcfl, haccv]
          norm_num

theorem C9_cashflow_sign_invariant_witness :
    ∃ res : PricingResult,
      price (ZeroCurve.mk [1, 2] [1 / 25, 1 / 25] "w" none)
        (ZeroCurve.mk [1, 2] [1 / 25, 1 / 25] "w" none)
        ⟨⟨2025, 11, 17⟩, ⟨2025, 11, 17⟩, 1 / 2, 1000000, -1 / 100, "fixed", 2, 4,
          "30/360", "ACT/365", 0⟩ = .ok res ∧
      ∀ row ∈ res.cashflows,
        (row.leg = "fixed" ∨ row.leg = "floating") ∧
        row.present_value = row.cashflow * row.df := by
  obtain ⟨psF, psL, hgF, hgL, _, _, _, hmono⟩ := concrete_schedules
  obtain ⟨res, F, L, hprice, _, _, _⟩ := price_ok
    (ZeroCurve.mk [1, 2] [1 / 25, 1 / 25] "w" none)
    (ZeroCurve.mk [1, 2] [1 / 25, 1 / 25] "w" none)
    ⟨⟨2025, 11, 17⟩, ⟨2025, 11, 17⟩, 1 / 2, 1000000, -1 / 100, "fixed", 2, 4,
      "30/360", "ACT/365", 0⟩ psF psL hgF hgL hmono
  refine ⟨res, hprice, fun row hrow => ?_⟩
  have h := (C9_cashflow_sign_invariant _ _ _ _ hprice).2 row hrow
  exact ⟨h.1, h.2.2⟩
